import Mathlib

/-!
# apiserver-proxy sidecar: iptables lock acquisition and the reconciliation controller

A shallow embedding of

* `internal/iptables/iptables_linux.go` (`locker.Close`, `grabIptablesLocks`), and
* `internal/app/app.go` (`NewSidecarApp`, `getIPTables`, `runChecks`, `runPeriodic`,
  `TeardownNetworking`, `RunApp`),

followed by theorems about them.  Go `error` values are modelled by their message
(`Option String`, `none` being `nil`).  Every call that leaves the program (system calls,
the iptables interface, the address manager, klog) is appended to a trace, so that the order
and the number of calls can be stated.
-/

namespace ApiserverProxy

/-! ## internal/iptables/iptables_linux.go -/

namespace iptables

/-- Handle of an opened lock file (`*os.File`). -/
abbrev File := Nat

/-- Handle of a bound listener (`*net.UnixListener`). -/
abbrev UnixListener := Nat

/-- Result of a call that yields a handle or an error (`(*T, error)` in Go). -/
inductive Res (α : Type) where
  | ok (a : α)
  | err (e : String)
  deriving DecidableEq, Repr

/-- One call made to the operating system, with the outcome the system gave. -/
inductive SysCall where
  | OpenFile (path : String) (res : Res File)
  | Flock (f : File) (res : Option String)
  | ListenUnix (name : String) (res : Res UnixListener)
  | FileClose (f : File) (res : Option String)
  | ListenerClose (l : UnixListener) (res : Option String)
  deriving DecidableEq, Repr

/-- The outcomes the operating system gives to the calls of this file.  `flock k` and
`listenUnix k` are the outcomes of the `k`-th call (counted from 0) of `unix.Flock` and of
`net.ListenUnix`; `ticks16` and `ticks14` are the numbers of 200ms timer ticks that fit
before the 2s deadline of the first and of the second poll. -/
structure Sys where
  openFile : String → Res File
  flock : Nat → Option String
  listenUnix : Nat → Res UnixListener
  fileClose : File → Option String
  listenerClose : UnixListener → Option String
  ticks16 : Nat
  ticks14 : Nat

/-- The state threaded through the calls: how many `Flock` and `ListenUnix` calls were made,
and the trace of all calls so far. -/
structure SysState where
  flockCalls : Nat
  listenCalls : Nat
  trace : List SysCall
  deriving DecidableEq, Repr

/-- The state before any call. -/
def SysState.init : SysState := ⟨0, 0, []⟩

/-- The call `os.OpenFile(lockfilePath, os.O_CREATE, 0600)`. -/
def OpenFile (env : Sys) (path : String) (s : SysState) : Res File × SysState :=
  let r := env.openFile path
  (r, { s with trace := s.trace ++ [SysCall.OpenFile path r] })

/-- The call `unix.Flock(int(f.Fd()), unix.LOCK_EX|unix.LOCK_NB)`, which is the whole body of
`grabIptablesFileLock`. -/
def grabIptablesFileLock (env : Sys) (f : File) (s : SysState) : Option String × SysState :=
  let r := env.flock s.flockCalls
  (r, { s with flockCalls := s.flockCalls + 1, trace := s.trace ++ [SysCall.Flock f r] })

/-- The call `net.ListenUnix("unix", &net.UnixAddr{Name: "@xtables", Net: "unix"})`. -/
def ListenUnix (env : Sys) (s : SysState) : Res UnixListener × SysState :=
  let r := env.listenUnix s.listenCalls
  (r, { s with listenCalls := s.listenCalls + 1,
               trace := s.trace ++ [SysCall.ListenUnix "@xtables" r] })

/-- The call `(*os.File).Close`. -/
def FileClose (env : Sys) (f : File) (s : SysState) : Option String × SysState :=
  let r := env.fileClose f
  (r, { s with trace := s.trace ++ [SysCall.FileClose f r] })

/-- The call `(*net.UnixListener).Close`. -/
def ListenerClose (env : Sys) (l : UnixListener) (s : SysState) : Option String × SysState :=
  let r := env.listenerClose l
  (r, { s with trace := s.trace ++ [SysCall.ListenerClose l r] })

/-- The two halves of the lock: `lock16` the locked file, `lock14` the bound endpoint;
`none` is the `nil` pointer. -/
structure locker where
  lock16 : Option File
  lock14 : Option UnixListener
  deriving DecidableEq, Repr

/-- The library function `utilerrors.NewAggregate`: `nil` for an empty list, the aggregate of
the errors otherwise (the list holds no `nil`, by its type). -/
def NewAggregate (errList : List String) : Option (List String) :=
  if errList.isEmpty then none else some errList

/-- The method `locker.Close`. -/
def locker.Close (env : Sys) (l : locker) (s : SysState) : Option (List String) × SysState :=
  let errList : List String := []
  let (errList, s) :=
    match l.lock16 with
    | some f =>
      match FileClose env f s with
      | (some err, s) => (errList ++ [err], s)
      | (none, s) => (errList, s)
    | none => (errList, s)
  let (errList, s) :=
    match l.lock14 with
    | some ls =>
      match ListenerClose env ls s with
      | (some err, s) => (errList ++ [err], s)
      | (none, s) => (errList, s)
    | none => (errList, s)
  (NewAggregate errList, s)

/-- The message of `context.DeadlineExceeded`. -/
def DeadlineExceeded : String := "context deadline exceeded"

/-- The timer loop of `wait.PollUntilContextTimeout`: at each of the remaining ticks the
condition is evaluated; the loop ends when the condition reports done or an error, and with
the deadline error when no tick is left. -/
def pollLoop {σ : Type} (condition : σ → (Bool × Option String) × σ) :
    Nat → σ → Option String × σ
  | 0, s => (some DeadlineExceeded, s)
  | n + 1, s =>
    match condition s with
    | ((ok, err), s1) => if err.isSome || ok then (err, s1) else pollLoop condition n s1

/-- The library function `wait.PollUntilContextTimeout(ctx, interval, timeout, true, condition)`
with `immediate = true`: the condition is evaluated once at once, and then at each of the
`ticks` timer ticks that fit before the deadline. -/
def PollUntilContextTimeout {σ : Type} (ticks : Nat)
    (condition : σ → (Bool × Option String) × σ) (s : σ) : Option String × σ :=
  match condition s with
  | ((ok, err), s1) => if err.isSome || ok then (err, s1) else pollLoop condition ticks s1

/-- The condition of the first poll (source lines 65-70): one non-blocking lock attempt on
`l.lock16`. -/
def fileLockCondition (env : Sys) (f : File) (st : locker × SysState) :
    (Bool × Option String) × (locker × SysState) :=
  match grabIptablesFileLock env f st.2 with
  | (some _, s) => ((false, none), (st.1, s))
  | (none, s) => ((true, none), (st.1, s))

/-- The condition of the second poll (source lines 75-81): one bind attempt; its result is
stored in `l.lock14` (the `nil` listener on failure). -/
def bindCondition (env : Sys) (st : locker × SysState) :
    (Bool × Option String) × (locker × SysState) :=
  match ListenUnix env st.2 with
  | (Res.err _, s) => ((false, none), ({ st.1 with lock14 := none }, s))
  | (Res.ok ls, s) => ((true, none), ({ st.1 with lock14 := some ls }, s))

/-- What `grabIptablesLocks` has computed when its `return` is reached, before the deferred
function runs: the returned pair, the locker `l`, and the flag `success`. -/
structure GrabExit where
  ret : Option locker × Option String
  l : locker
  success : Bool
  s : SysState

/-- The body of `grabIptablesLocks` up to its `return` (source lines 60-86). -/
def grabBody (env : Sys) (lockfilePath : String) (l : locker) (s : SysState) : GrabExit :=
  match OpenFile env lockfilePath s with
  | (Res.err e, s) =>
    ⟨(none, some ("failed to open iptables lock " ++ lockfilePath ++ ": " ++ e)),
      { l with lock16 := none }, false, s⟩
  | (Res.ok f, s) =>
    let l := { l with lock16 := some f }
    match PollUntilContextTimeout env.ticks16 (fileLockCondition env f) (l, s) with
    | (some e, (l, s)) =>
      ⟨(none, some ("failed to acquire new iptables lock: " ++ e)), l, false, s⟩
    | (none, (l, s)) =>
      match PollUntilContextTimeout env.ticks14 (bindCondition env) (l, s) with
      | (some e, (l, s)) =>
        ⟨(none, some ("failed to acquire old iptables lock: " ++ e)), l, false, s⟩
      | (none, (l, s)) => ⟨(some l, none), l, true, s⟩

/-- The function `grabIptablesLocks`: the body, then the deferred function, which closes `l`
when `success` is false and drops what `Close` returns. -/
def grabIptablesLocks (env : Sys) (lockfilePath : String) (s : SysState) :
    (Option locker × Option String) × SysState :=
  let l : locker := { lock16 := none, lock14 := none }
  let x := grabBody env lockfilePath l s
  if !x.success then (x.ret, (x.l.Close env x.s).2) else (x.ret, x.s)

/-- A bind attempt that failed: the event it leaves in the trace. -/
def failedBind (e : SysCall) : Prop := ∃ msg, e = SysCall.ListenUnix "@xtables" (Res.err msg)

/-- The calls `locker.Close` makes: one close for each half that is held, the file first. -/
def closeCalls (env : Sys) (l : locker) : List SysCall :=
  (match l.lock16 with
    | some f => [SysCall.FileClose f (env.fileClose f)]
    | none => []) ++
  (match l.lock14 with
    | some ls => [SysCall.ListenerClose ls (env.listenerClose ls)]
    | none => [])

/-- The errors `locker.Close` collects: the error of each held half whose close failed. -/
def closeErrors (env : Sys) (l : locker) : List String :=
  (match l.lock16 with
    | some f => (env.fileClose f).toList
    | none => []) ++
  (match l.lock14 with
    | some ls => (env.listenerClose ls).toList
    | none => [])

/-- The lock files and the endpoints that are held after a trace of calls: a successful open
or bind adds the handle, a close removes it (whatever error the close reports, the handle is
gone afterwards). -/
def heldAfter (tr : List SysCall) : List File × List UnixListener :=
  tr.foldl (fun acc e =>
    match e with
    | SysCall.OpenFile _ (Res.ok f) => (f :: acc.1, acc.2)
    | SysCall.ListenUnix _ (Res.ok ls) => (acc.1, ls :: acc.2)
    | SysCall.FileClose f _ => (acc.1.erase f, acc.2)
    | SysCall.ListenerClose ls _ => (acc.1, acc.2.erase ls)
    | _ => acc) ([], [])

end iptables

/-! ## strings -/

/-- Whether the characters `pre` are the first characters of a list. -/
def startsWith : List Char → List Char → Bool
  | [], _ => true
  | _ :: _, [] => false
  | a :: as, b :: bs => a == b && startsWith as bs

/-- Whether the characters `sub` occur consecutively somewhere in a list. -/
def containsChars (sub : List Char) : List Char → Bool
  | [] => sub.isEmpty
  | c :: cs => startsWith sub (c :: cs) || containsChars sub cs

/-- The library function `strings.Contains(s, substr)`. -/
def stringsContains (s substr : String) : Bool := containsChars substr.toList s.toList

namespace iptables

/-- The error `grabIptablesLocks` returns reports every release error of its clean-up: each
error a close call of the run returned occurs in the text of the returned error. -/
def ReleaseErrorsReported (env : Sys) (path : String) (s : SysState) : Prop :=
  (grabIptablesLocks env path s).1.1 = none →
    ∀ f e, SysCall.FileClose f (some e) ∈ (grabIptablesLocks env path s).2.trace →
      ∃ msg, (grabIptablesLocks env path s).1.2 = some msg ∧ stringsContains msg e = true

/-- Outcomes under which the file lock is never granted and closing the lock file fails. -/
def busyEnv : Sys where
  openFile := fun _ => Res.ok 3
  flock := fun _ => some "resource temporarily unavailable"
  listenUnix := fun _ => Res.ok 4
  fileClose := fun _ => some "input/output error"
  listenerClose := fun _ => none
  ticks16 := 10
  ticks14 := 10

/-- Outcomes under which everything succeeds at the first attempt. -/
def freeEnv : Sys where
  openFile := fun _ => Res.ok 3
  flock := fun _ => none
  listenUnix := fun _ => Res.ok 4
  fileClose := fun _ => none
  listenerClose := fun _ => none
  ticks16 := 10
  ticks14 := 10

end iptables

/-! ## internal/app/app.go -/

namespace app

/-- Modelled from the spec: the type `utiliptables.RulePosition` with its constant `Prepend`
("insertion of a rule at the head of a chain rather than the tail"); the declaration is in a
file of package `iptables` that is not part of the sources at hand. -/
inductive RulePosition where
  | Prepend
  | Append
  deriving DecidableEq, Repr

/-- Modelled from the spec: the constant `utiliptables.TableFilter` (table "filter"). -/
def TableFilter : String := "filter"

/-- Modelled from the spec: the constant `utiliptables.ChainPrerouting` (chain "PREROUTING"). -/
def ChainPrerouting : String := "PREROUTING"

/-- Modelled from the spec: the constant `utiliptables.ChainInput` (chain "INPUT"). -/
def ChainInput : String := "INPUT"

/-- Modelled from the spec: the constant `utiliptables.ChainOutput` (chain "OUTPUT"). -/
def ChainOutput : String := "OUTPUT"

/-- The struct `iptablesRule`, as `getIPTables` builds it: table, chain, arguments. -/
structure iptablesRule where
  table : String
  chain : String
  args : List String
  deriving DecidableEq, Repr

/-- Modelled from the spec: the struct `ConfigParams` with the fields `app.go` reads
("address, local port, network interface, reconciliation interval, enable-rule-management,
run-forever, teardown-on-exit"); its declaration is not part of the sources at hand.
`Interval` is the `time.Duration` handed to `time.NewTicker`, a signed number of
nanoseconds. -/
structure ConfigParams where
  IPAddress : String
  LocalPort : String
  Interface : String
  Interval : Int
  SetupIptables : Bool
  Daemon : Bool
  Cleanup : Bool
  deriving DecidableEq, Repr

/-- The fields of `SidecarApp` that hold data: the parameters, the parsed local address and
the rule list.  The handles `iptables` and `netManager` are the collaborators of `Host`. -/
structure SidecarApp where
  params : ConfigParams
  localIP : String
  iptablesRules : List iptablesRule
  deriving DecidableEq, Repr

/-- An error built by `xerrors.Errorf(format, address, err)`: the format and its two
arguments, the address (rendered by `%q`) and the error (rendered by `%v`, `none` being the
nil error). -/
structure Errorf where
  format : String
  address : String
  err : Option String
  deriving DecidableEq, Repr

/-- The function `NewSidecarApp`.  The two library parsers are parameters: `netipParseAddr`
yields the bit length of the address, `netlinkParseAddr` the parsed address (or `nil`).  The
klog line of the function is left out, the function having no other effect. -/
def NewSidecarApp (netipParseAddr : String → Except String Nat)
    (netlinkParseAddr : String → Except String (Option String)) (params : ConfigParams) :
    Except Errorf SidecarApp :=
  match netipParseAddr params.IPAddress with
  | Except.error err =>
    Except.error ⟨"unable to parse IP address %q - %v", params.IPAddress, some err⟩
  | Except.ok bitLen =>
    match netlinkParseAddr (params.IPAddress ++ "/" ++ toString bitLen) with
    | Except.error err =>
      Except.error ⟨"unable to parse IP address %q - %v", params.IPAddress, some err⟩
    | Except.ok none =>
      Except.error ⟨"unable to parse IP address %q - %v", params.IPAddress, none⟩
    | Except.ok (some addr) =>
      Except.ok { params := params, localIP := addr, iptablesRules := [] }

/-- The method `getIPTables`: appends the five rules to `c.iptablesRules`.  The handle it
returns is the iptables collaborator of `Host`. -/
def getIPTables (c : SidecarApp) : SidecarApp :=
  { c with iptablesRules := c.iptablesRules ++ [
      ⟨"raw", ChainPrerouting, ["-p", "tcp", "-d", c.params.IPAddress,
        "--dport", c.params.LocalPort, "-j", "NOTRACK"]⟩,
      ⟨TableFilter, ChainInput, ["-p", "tcp", "-d", c.params.IPAddress,
        "--dport", c.params.LocalPort, "-j", "ACCEPT"]⟩,
      ⟨"raw", ChainOutput, ["-p", "tcp", "-s", c.params.IPAddress,
        "--sport", c.params.LocalPort, "-j", "NOTRACK"]⟩,
      ⟨TableFilter, ChainOutput, ["-p", "tcp", "-s", c.params.IPAddress,
        "--sport", c.params.LocalPort, "-j", "ACCEPT"]⟩,
      ⟨"raw", ChainOutput, ["-p", "tcp", "-d", c.params.IPAddress,
        "--dport", c.params.LocalPort, "-j", "NOTRACK"]⟩] }

/-- The collaborators of the controller: the iptables interface (`EnsureRule`, `DeleteRule`)
and the address manager (`EnsureIPAddress`, `RemoveIPAddress`), as functions on a state `σ`
of the host.  Any behaviour of the collaborators is some `Host`. -/
structure Host (σ : Type) where
  EnsureRule : RulePosition → String → String → List String → σ → (Bool × Option String) × σ
  DeleteRule : String → String → List String → σ → Option String × σ
  EnsureIPAddress : σ → Option String × σ
  RemoveIPAddress : σ → Option String × σ

/-- Severity of a klog line. -/
inductive Severity where
  | V2
  | Info
  | Warning
  | Error
  | Fatal
  deriving DecidableEq, Repr

/-- What the controller does to the outside: a call to a collaborator, or a klog line (the
format string only). -/
inductive Event where
  | EnsureRule (position : RulePosition) (table chain : String) (args : List String)
  | DeleteRule (table chain : String) (args : List String)
  | EnsureIPAddress
  | RemoveIPAddress
  | Log (severity : Severity) (format : String)
  deriving DecidableEq, Repr

/-- The state of the host together with the trace of events so far. -/
structure World (σ : Type) where
  host : σ
  trace : List Event

/-- A klog line. -/
def klog {σ : Type} (severity : Severity) (format : String) (w : World σ) : World σ :=
  { w with trace := w.trace ++ [Event.Log severity format] }

/-- The call `c.iptables.EnsureRule(position, rule.table, rule.chain, rule.args...)`. -/
def EnsureRule {σ : Type} (H : Host σ) (position : RulePosition) (rule : iptablesRule)
    (w : World σ) : (Bool × Option String) × World σ :=
  ((H.EnsureRule position rule.table rule.chain rule.args w.host).1,
    { host := (H.EnsureRule position rule.table rule.chain rule.args w.host).2,
      trace := w.trace ++ [Event.EnsureRule position rule.table rule.chain rule.args] })

/-- The call `c.iptables.DeleteRule(rule.table, rule.chain, rule.args...)`. -/
def DeleteRule {σ : Type} (H : Host σ) (rule : iptablesRule) (w : World σ) :
    Option String × World σ :=
  ((H.DeleteRule rule.table rule.chain rule.args w.host).1,
    { host := (H.DeleteRule rule.table rule.chain rule.args w.host).2,
      trace := w.trace ++ [Event.DeleteRule rule.table rule.chain rule.args] })

/-- The call `c.netManager.EnsureIPAddress()`. -/
def EnsureIPAddress {σ : Type} (H : Host σ) (w : World σ) : Option String × World σ :=
  ((H.EnsureIPAddress w.host).1,
    { host := (H.EnsureIPAddress w.host).2, trace := w.trace ++ [Event.EnsureIPAddress] })

/-- The call `c.netManager.RemoveIPAddress()`. -/
def RemoveIPAddress {σ : Type} (H : Host σ) (w : World σ) : Option String × World σ :=
  ((H.RemoveIPAddress w.host).1,
    { host := (H.RemoveIPAddress w.host).2, trace := w.trace ++ [Event.RemoveIPAddress] })

/-- The function `isLockedErr`. -/
def isLockedErr (err : String) : Bool := stringsContains err "holding the xtables lock"

/-- The loop `for exists { ... }` of `TeardownNetworking` (source lines 51-58) for one rule,
run for at most `fuel` iterations.  The flag tells whether the loop was left. -/
def deleteWhileExists {σ : Type} (H : Host σ) (rule : iptablesRule) :
    Nat → World σ → World σ × Bool
  | 0, w => (w, false)
  | fuel + 1, w =>
    let r := DeleteRule H rule w
    let w1 := if r.1.isSome then klog Severity.Error "Error deleting iptables rule %v - %s" r.2
      else r.2
    let e := EnsureRule H RulePosition.Prepend rule w1
    if e.1.1 then deleteWhileExists H rule fuel e.2 else (e.2, true)

/-- The loop `for _, rule := range c.iptablesRules` of `TeardownNetworking` (source lines
50-64).  The flag tells whether the whole loop was left. -/
def teardownRules {σ : Type} (H : Host σ) (fuel : Nat) :
    List iptablesRule → World σ → World σ × Bool
  | [], w => (w, true)
  | rule :: rest, w =>
    let x := deleteWhileExists H rule fuel w
    if x.2 then
      let r := DeleteRule H rule x.1
      let w1 := if r.1.isSome then klog Severity.Error "Error deleting iptables rule %v - %s" r.2
        else r.2
      teardownRules H fuel rest w1
    else (x.1, false)

/-- The method `TeardownNetworking`.  The second component is `none` while an inner loop is
still running after `fuel` iterations, and `some err` when the method has returned `err`. -/
def TeardownNetworking {σ : Type} (H : Host σ) (c : SidecarApp) (fuel : Nat) (w : World σ) :
    World σ × Option (Option String) :=
  let w0 := klog Severity.Info "Cleaning up" w
  let r := RemoveIPAddress H w0
  if c.params.SetupIptables then
    let x := teardownRules H fuel c.iptablesRules r.2
    if x.2 then (x.1, some r.1) else (x.1, none)
  else (r.2, some r.1)

/-- The loop over the rules in `runChecks` (source lines 112-132). -/
def ensureRules {σ : Type} (H : Host σ) : List iptablesRule → World σ → World σ
  | [], w => w
  | rule :: rest, w =>
    let e := EnsureRule H RulePosition.Prepend rule w
    let w1 :=
      if e.1.1 then
        klog Severity.V2 "iptables rule %v for apiserver-proxy-sidecar already exists" e.2
      else
        match e.1.2 with
        | none => klog Severity.Info "Added back apiserver-proxy-sidecar rule - %v" e.2
        | some err =>
          if isLockedErr err then
            klog Severity.Info
              "Error checking/adding iptables rule %v, due to xtables lock in use, retrying in %v"
              e.2
          else klog Severity.Error "Error adding iptables rule %v - %s" e.2
    ensureRules H rest w1

/-- The method `runChecks`. -/
def runChecks {σ : Type} (H : Host σ) (c : SidecarApp) (w : World σ) : World σ :=
  let w1 := if c.params.SetupIptables then ensureRules H c.iptablesRules w else w
  let w2 := klog Severity.V2 "Ensuring ip address" w1
  let r := EnsureIPAddress H w2
  let w3 := if r.1.isSome then klog Severity.Error "Error ensuring ip address: %v" r.2 else r.2
  klog Severity.V2 "Ensured ip address" w3

/-- What one `select` of `runPeriodic` receives: a timer tick, or the cancellation of the
context. -/
inductive Signal where
  | tick
  | done
  deriving DecidableEq, Repr

/-- The loop `for { select { ... } }` of `runPeriodic` (source lines 98-107), driven by the
signals its `select` receives in order.  The flag tells whether the loop has returned; it is
false when the signals end without cancellation (the loop is then still waiting). -/
def selectLoop {σ : Type} (H : Host σ) (c : SidecarApp) :
    List Signal → World σ → World σ × Bool
  | [], w => (w, false)
  | Signal.done :: _, w =>
    (klog Severity.Warning "Exiting iptables/interface check goroutine" w, true)
  | Signal.tick :: rest, w => selectLoop H c rest (runChecks H c w)

/-- How a call of `runPeriodic` stands at the end of the signals. -/
inductive Periodic where
  | returned
  | waiting
  | panicked
  deriving DecidableEq, Repr

/-- The method `runPeriodic`: `time.NewTicker(c.params.Interval)` (source line 96), which
panics when the interval is not positive, then the loop. -/
def runPeriodic {σ : Type} (H : Host σ) (c : SidecarApp) (signals : List Signal)
    (w : World σ) : World σ × Periodic :=
  if c.params.Interval ≤ 0 then (w, Periodic.panicked)
  else
    let x := selectLoop H c signals w
    if x.2 then (x.1, Periodic.returned) else (x.1, Periodic.waiting)

/-- The statement `if c.params.SetupIptables { c.iptables = c.getIPTables() }` of `RunApp`
(source lines 148-150). -/
def setupRules (c : SidecarApp) : SidecarApp :=
  if c.params.SetupIptables then getIPTables c else c

/-- How a run of `RunApp` stands at the end of the signals and of the fuel. -/
inductive Exit where
  | returned
  | fatal
  | panicked
  | waiting
  | deleting
  deriving DecidableEq, Repr

/-- The deferred function of `RunApp` (source lines 153-159), run when the body has returned
(`panicking = false`) or while the panic of `runPeriodic` unwinds (`panicking = true`): the
teardown, then `klog.Fatalf` on an error, which ends the process; otherwise the last klog
line, after which the method returns or the panic goes on. -/
def deferredTeardown {σ : Type} (H : Host σ) (c : SidecarApp) (fuel : Nat) (panicking : Bool)
    (w : World σ) : World σ × Exit :=
  match TeardownNetworking H c fuel w with
  | (w3, none) => (w3, Exit.deleting)
  | (w3, some (some _)) => (klog Severity.Fatal "Failed to clean up - %v" w3, Exit.fatal)
  | (w3, some none) =>
    (klog Severity.Info "Successfully cleaned up everything. Bye!" w3,
      if panicking then Exit.panicked else Exit.returned)

/-- The method `RunApp`: the body (source lines 146-170), then the deferred function when
`Cleanup` is set.  The construction of the address manager (line 146) makes no call; the
manager is the address collaborator of `H`.  `Exit.waiting`: `runPeriodic` is still waiting
for a signal; `Exit.deleting`: a delete loop of the teardown is still running after `fuel`
iterations; `Exit.fatal`: `klog.Fatalf` ended the process; `Exit.panicked`: the panic of
`time.NewTicker` left the method, after the deferred function if there is one;
`Exit.returned`: the method returned. -/
def RunApp {σ : Type} (H : Host σ) (c : SidecarApp) (signals : List Signal) (fuel : Nat)
    (w : World σ) : World σ × Exit :=
  let c1 := setupRules c
  let w1 := runChecks H c1 w
  let p := if c1.params.Daemon then
      runPeriodic H c1 signals (klog Severity.Info "Running as a daemon" w1)
    else (w1, Periodic.returned)
  match p.2 with
  | Periodic.waiting => (p.1, Exit.waiting)
  | Periodic.returned =>
    let w2 := klog Severity.Info "Exiting... Bye!" p.1
    if c1.params.Cleanup then deferredTeardown H c1 fuel false w2 else (w2, Exit.returned)
  | Periodic.panicked =>
    if c1.params.Cleanup then deferredTeardown H c1 fuel true p.1 else (p.1, Exit.panicked)

/-! ### The vocabulary of the statements -/

/-- Whether an event is a call to a collaborator (not a klog line). -/
def Event.isCall : Event → Bool
  | Event.Log _ _ => false
  | _ => true

/-- Whether an event is a call to the iptables interface. -/
def Event.isRuleCall : Event → Bool
  | Event.EnsureRule _ _ _ _ => true
  | Event.DeleteRule _ _ _ => true
  | _ => false

/-- Whether an event is a `DeleteRule` call. -/
def Event.isDeleteRule : Event → Bool
  | Event.DeleteRule _ _ _ => true
  | _ => false

/-- The calls of a trace, in order, without the klog lines. -/
def calls (tr : List Event) : List Event := tr.filter Event.isCall

/-- The call `EnsureRule(Prepend, ...)` on a rule, as an event. -/
def ensureCall (rule : iptablesRule) : Event :=
  Event.EnsureRule RulePosition.Prepend rule.table rule.chain rule.args

/-- The calls of one pass of `runChecks`: one `EnsureRule(Prepend, ...)` for each rule in
list order when `SetupIptables` is set, then one `EnsureIPAddress`. -/
def passCalls (c : SidecarApp) : List Event :=
  (if c.params.SetupIptables then c.iptablesRules.map ensureCall else []) ++
    [Event.EnsureIPAddress]

/-- Modelled from the spec: the behaviour of the iptables interface on the kernel, whose
implementation (`EnsureRule`, `DeleteRule` of package `iptables`) is not part of the sources
at hand.  The kernel rule table is a multiset of rules (a list, the head being the head of
the chain): `DeleteRule` removes one instance if there is one and succeeds in any case
("must tolerate rule already absent as success"); `EnsureRule` reports whether the rule is
present and inserts one instance, at the head for `Prepend`, when it is not; the address
calls succeed and leave the rules alone. -/
def kernelHost : Host (List iptablesRule) where
  EnsureRule := fun position table chain args k =>
    if (⟨table, chain, args⟩ : iptablesRule) ∈ k then ((true, none), k)
    else
      match position with
      | RulePosition.Prepend => ((false, none), ⟨table, chain, args⟩ :: k)
      | RulePosition.Append => ((false, none), k ++ [⟨table, chain, args⟩])
  DeleteRule := fun table chain args k => (none, k.erase ⟨table, chain, args⟩)
  EnsureIPAddress := fun k => (none, k)
  RemoveIPAddress := fun k => (none, k)

/-- A measure on the host state decreases at every round of the delete loop that goes on:
whenever `DeleteRule` followed by `EnsureRule(Prepend)` reports the rule as present, the
measure of the state after the two calls is below the measure before them. -/
def Decreasing {σ : Type} (H : Host σ) (μ : σ → Nat) : Prop :=
  ∀ (rule : iptablesRule) (s : σ),
    (H.EnsureRule RulePosition.Prepend rule.table rule.chain rule.args
        (H.DeleteRule rule.table rule.chain rule.args s).2).1.1 = true →
      μ (H.EnsureRule RulePosition.Prepend rule.table rule.chain rule.args
          (H.DeleteRule rule.table rule.chain rule.args s).2).2 < μ s

/-- Collaborators under which a rule never goes away: every `DeleteRule` fails and every
`EnsureRule` reports the rule as present; the address calls succeed. -/
def stuckHost : Host Unit where
  EnsureRule := fun _ _ _ _ s => ((true, none), s)
  DeleteRule := fun _ _ _ s => (some "exit status 1", s)
  EnsureIPAddress := fun s => (none, s)
  RemoveIPAddress := fun s => (none, s)

/-- Collaborators with a counter as state: every `DeleteRule` fails; `EnsureRule` reports
the rule as present, with a lock error, and counts down while the counter is positive, and
reports it as absent afterwards; `RemoveIPAddress` fails with "no such device". -/
def flakyHost : Host Nat where
  EnsureRule := fun _ _ _ _ s =>
    if 0 < s then ((true, some "Another app is currently holding the xtables lock"), s - 1)
    else ((false, none), s)
  DeleteRule := fun _ _ _ s => (some "exit status 1", s)
  EnsureIPAddress := fun s => (none, s)
  RemoveIPAddress := fun s => (some "no such device", s)

/-- The state of the host after one round of the delete loop of a rule: `DeleteRule`, then
`EnsureRule(Prepend)`. -/
def deleteRound {σ : Type} (H : Host σ) (rule : iptablesRule) (s : σ) : σ :=
  (H.EnsureRule RulePosition.Prepend rule.table rule.chain rule.args
    (H.DeleteRule rule.table rule.chain rule.args s).2).2

/-- Whether the round of the delete loop of a rule that starts in the state `s` reports the
rule as present: the flag `EnsureRule(Prepend)` returns after the `DeleteRule`. -/
def reportsPresent {σ : Type} (H : Host σ) (rule : iptablesRule) (s : σ) : Bool :=
  (H.EnsureRule RulePosition.Prepend rule.table rule.chain rule.args
    (H.DeleteRule rule.table rule.chain rule.args s).2).1.1

/-- The calls of the teardown of one rule whose delete loop runs `k` rounds: `k` times
`DeleteRule` then `EnsureRule(Prepend)`, and then the final `DeleteRule`. -/
def ruleTeardownCalls (rule : iptablesRule) (k : Nat) : List Event :=
  (List.replicate k
    [Event.DeleteRule rule.table rule.chain rule.args, ensureCall rule]).flatten ++
    [Event.DeleteRule rule.table rule.chain rule.args]

/-- The call `TeardownNetworking` returns, and what it returns is the result of its
`RemoveIPAddress` call. -/
def ReturnsAddressError {σ : Type} (H : Host σ) (c : SidecarApp) (w : World σ) : Prop :=
  ∃ fuel, (TeardownNetworking H c fuel w).2 = some (H.RemoveIPAddress w.host).1

/-- In daemon mode, after `n` timer ticks and no cancellation `RunApp` is still in its
periodic loop and has made `n + 1` passes (as many `EnsureIPAddress` calls). -/
def LoopsUntilCancelled {σ : Type} (H : Host σ) (c : SidecarApp) (n fuel : Nat)
    (w : World σ) : Prop :=
  c.params.Daemon = true →
    (RunApp H c (List.replicate n Signal.tick) fuel w).2 = Exit.waiting ∧
    (calls (RunApp H c (List.replicate n Signal.tick) fuel w).1.trace).count
      Event.EnsureIPAddress = (calls w.trace).count Event.EnsureIPAddress + (n + 1)

/-- In a list of calls, no `DeleteRule` call comes after a `RemoveIPAddress` call. -/
def RemoveAfterDeletes (tr : List Event) : Prop :=
  ∀ pre post, tr = pre ++ Event.RemoveIPAddress :: post → ∀ e ∈ post, e.isDeleteRule = false

/-- The parameters of the literal scenario: address 100.64.0.1, port "443", rule management,
daemon and teardown enabled. -/
def params443 : ConfigParams where
  IPAddress := "100.64.0.1"
  LocalPort := "443"
  Interface := "lo"
  Interval := 5000000000
  SetupIptables := true
  Daemon := true
  Cleanup := true

/-- The freshly constructed app of the literal scenario. -/
def fresh443 : SidecarApp where
  params := params443
  localIP := "100.64.0.1/32"
  iptablesRules := []

/-- The app of the literal scenario after `getIPTables`. -/
def app443 : SidecarApp := getIPTables fresh443

/-- The freshly constructed app of the literal scenario with the interval set to 0. -/
def zeroInterval443 : SidecarApp where
  params := { params443 with Interval := 0 }
  localIP := "100.64.0.1/32"
  iptablesRules := []

end app

/-! # Theorems -/

namespace iptables

/-! ### Lemmas on the two polls -/

theorem PollUntilContextTimeout_eq_pollLoop {σ : Type} (ticks : Nat)
    (condition : σ → (Bool × Option String) × σ) (s : σ) :
    PollUntilContextTimeout ticks condition s = pollLoop condition (ticks + 1) s := rfl

/-- What `n` evaluations of the file-lock condition do. -/
theorem pollLoop_fileLock (env : Sys) (f : File) : ∀ (n : Nat) (l : locker) (s : SysState),
    ((pollLoop (fileLockCondition env f) n (l, s)).2.1 = l ∧
      (pollLoop (fileLockCondition env f) n (l, s)).2.2.listenCalls = s.listenCalls) ∧
    ((pollLoop (fileLockCondition env f) n (l, s)).1 = none ∨
      (pollLoop (fileLockCondition env f) n (l, s)).1 = some DeadlineExceeded) ∧
    ((pollLoop (fileLockCondition env f) n (l, s)).1 = none ↔
      ∃ i, i < n ∧ env.flock (s.flockCalls + i) = none) ∧
    ∃ evs, (pollLoop (fileLockCondition env f) n (l, s)).2.2.trace = s.trace ++ evs ∧
      (∀ e ∈ evs, ∃ res, e = SysCall.Flock f res) ∧
      ((pollLoop (fileLockCondition env f) n (l, s)).1 ≠ none → evs.length = n) := by
  intro n
  induction n with
  | zero =>
    intro l s
    refine ⟨⟨rfl, rfl⟩, Or.inr rfl, ?_, [], ?_, ?_, ?_⟩
    · simp [pollLoop]
    · simp [pollLoop]
    · simp
    · simp
  | succ n ih =>
    intro l s
    cases h : env.flock s.flockCalls with
    | none =>
      have e : pollLoop (fileLockCondition env f) (n + 1) (l, s) =
          (none, (l, { s with flockCalls := s.flockCalls + 1,
                              trace := s.trace ++ [SysCall.Flock f none] })) := by
        simp [pollLoop, fileLockCondition, grabIptablesFileLock, h]
      rw [e]
      refine ⟨⟨rfl, rfl⟩, Or.inl rfl, ?_, [SysCall.Flock f none], rfl, ?_, ?_⟩
      · simp only [true_iff]
        exact ⟨0, Nat.succ_pos n, by simpa using h⟩
      · intro e he
        simp only [List.mem_singleton] at he
        exact ⟨none, he⟩
      · simp
    | some msg =>
      have e : pollLoop (fileLockCondition env f) (n + 1) (l, s) =
          pollLoop (fileLockCondition env f) n
            (l, { s with flockCalls := s.flockCalls + 1,
                         trace := s.trace ++ [SysCall.Flock f (some msg)] }) := by
        simp [pollLoop, fileLockCondition, grabIptablesFileLock, h]
      rw [e]
      obtain ⟨h1, h2, h3, evs, h4, h5, h6⟩ := ih l
        { s with flockCalls := s.flockCalls + 1,
                 trace := s.trace ++ [SysCall.Flock f (some msg)] }
      refine ⟨h1, h2, ?_, SysCall.Flock f (some msg) :: evs, ?_, ?_, ?_⟩
      · rw [h3]
        constructor
        · rintro ⟨i, hi, hf⟩
          refine ⟨i + 1, Nat.succ_lt_succ hi, ?_⟩
          have : s.flockCalls + (i + 1) = s.flockCalls + 1 + i := by omega
          rw [this]
          exact hf
        · rintro ⟨i, hi, hf⟩
          cases i with
          | zero =>
            rw [Nat.add_zero, h] at hf
            cases hf
          | succ j =>
            refine ⟨j, Nat.lt_of_succ_lt_succ hi, ?_⟩
            have : s.flockCalls + (j + 1) = s.flockCalls + 1 + j := by omega
            rw [this] at hf
            exact hf
      · rw [h4]
        simp
      · intro e he
        rcases List.mem_cons.mp he with he | he
        · exact ⟨some msg, he⟩
        · exact h5 e he
      · intro hne
        simp [h6 hne]

/-- What `n` evaluations of the bind condition do. -/
theorem pollLoop_bind (env : Sys) : ∀ (n : Nat) (l : locker) (s : SysState),
    (pollLoop (bindCondition env) n (l, s)).2.1.lock16 = l.lock16 ∧
    ((pollLoop (bindCondition env) n (l, s)).1 = none ∨
      (pollLoop (bindCondition env) n (l, s)).1 = some DeadlineExceeded) ∧
    ((pollLoop (bindCondition env) n (l, s)).1 = none ↔
      ∃ j, j < n ∧ ∃ ls, env.listenUnix (s.listenCalls + j) = Res.ok ls) ∧
    ∃ evs, (pollLoop (bindCondition env) n (l, s)).2.2.trace = s.trace ++ evs ∧
      ((pollLoop (bindCondition env) n (l, s)).1 ≠ none →
        evs.length = n ∧ (∀ e ∈ evs, failedBind e) ∧
        (0 < n → (pollLoop (bindCondition env) n (l, s)).2.1.lock14 = none)) ∧
      ((pollLoop (bindCondition env) n (l, s)).1 = none →
        ∃ pre ls j, evs = pre ++ [SysCall.ListenUnix "@xtables" (Res.ok ls)] ∧
          (∀ e ∈ pre, failedBind e) ∧ j < n ∧
          env.listenUnix (s.listenCalls + j) = Res.ok ls ∧
          (pollLoop (bindCondition env) n (l, s)).2.1.lock14 = some ls) := by
  intro n
  induction n with
  | zero =>
    intro l s
    refine ⟨rfl, Or.inr rfl, ?_, [], ?_, ?_, ?_⟩
    · simp [pollLoop]
    · simp [pollLoop]
    · simp
    · simp [pollLoop]
  | succ n ih =>
    intro l s
    cases h : env.listenUnix s.listenCalls with
    | ok ls =>
      have e : pollLoop (bindCondition env) (n + 1) (l, s) =
          (none, ({ l with lock14 := some ls },
                  { s with listenCalls := s.listenCalls + 1,
                           trace := s.trace ++ [SysCall.ListenUnix "@xtables" (Res.ok ls)] })) := by
        simp [pollLoop, bindCondition, ListenUnix, h]
      rw [e]
      refine ⟨rfl, Or.inl rfl, ?_, [SysCall.ListenUnix "@xtables" (Res.ok ls)], rfl, ?_, ?_⟩
      · simp only [true_iff]
        exact ⟨0, Nat.succ_pos n, ls, by simpa using h⟩
      · simp
      · intro _
        exact ⟨[], ls, 0, rfl, by simp, Nat.succ_pos n, by simpa using h, rfl⟩
    | err msg =>
      have e : pollLoop (bindCondition env) (n + 1) (l, s) =
          pollLoop (bindCondition env) n
            ({ l with lock14 := none },
             { s with listenCalls := s.listenCalls + 1,
                      trace := s.trace ++ [SysCall.ListenUnix "@xtables" (Res.err msg)] }) := by
        simp [pollLoop, bindCondition, ListenUnix, h]
      rw [e]
      obtain ⟨h1, h2, h3, evs, h4, h5, h6⟩ := ih { l with lock14 := none }
        { s with listenCalls := s.listenCalls + 1,
                 trace := s.trace ++ [SysCall.ListenUnix "@xtables" (Res.err msg)] }
      refine ⟨h1, h2, ?_, SysCall.ListenUnix "@xtables" (Res.err msg) :: evs, ?_, ?_, ?_⟩
      · rw [h3]
        constructor
        · rintro ⟨j, hj, ls, hf⟩
          refine ⟨j + 1, Nat.succ_lt_succ hj, ls, ?_⟩
          have : s.listenCalls + (j + 1) = s.listenCalls + 1 + j := by omega
          rw [this]
          exact hf
        · rintro ⟨j, hj, ls, hf⟩
          cases j with
          | zero =>
            rw [Nat.add_zero, h] at hf
            cases hf
          | succ k =>
            refine ⟨k, Nat.lt_of_succ_lt_succ hj, ls, ?_⟩
            have : s.listenCalls + (k + 1) = s.listenCalls + 1 + k := by omega
            rw [this] at hf
            exact hf
      · rw [h4]
        simp
      · intro hne
        obtain ⟨a, b, c⟩ := h5 hne
        refine ⟨by simp [a], ?_, ?_⟩
        · intro e he
          rcases List.mem_cons.mp he with he | he
          · exact ⟨msg, he⟩
          · exact b e he
        · intro _
          cases n with
          | zero => simp [pollLoop]
          | succ m => exact c (Nat.succ_pos m)
      · intro hn
        obtain ⟨pre, ls, j, a, b, c, d, e2⟩ := h6 hn
        refine ⟨SysCall.ListenUnix "@xtables" (Res.err msg) :: pre, ls, j + 1, by simp [a], ?_,
          Nat.succ_lt_succ c, ?_, e2⟩
        · intro e he
          rcases List.mem_cons.mp he with he | he
          · exact ⟨msg, he⟩
          · exact b e he
        · have : s.listenCalls + (j + 1) = s.listenCalls + 1 + j := by omega
          rw [this]
          exact d

theorem locker_Close_eq (env : Sys) (l : locker) (s : SysState) :
    locker.Close env l s =
      (NewAggregate (closeErrors env l), { s with trace := s.trace ++ closeCalls env l }) := by
  rcases l with ⟨_ | f, _ | ls⟩
  · simp [locker.Close, closeCalls, closeErrors]
  · cases h : env.listenerClose ls <;>
      simp [locker.Close, closeCalls, closeErrors, ListenerClose, h]
  · cases h : env.fileClose f <;>
      simp [locker.Close, closeCalls, closeErrors, FileClose, h]
  · cases h : env.fileClose f <;> cases h2 : env.listenerClose ls <;>
      simp [locker.Close, closeCalls, closeErrors, FileClose, ListenerClose, h, h2]

/-- The four ways `grabIptablesLocks` can run: the open fails; the file-lock poll times out;
the bind poll times out; both polls succeed.  Each case gives the returned pair and the trace. -/
theorem grabIptablesLocks_cases (env : Sys) (path : String) (s : SysState) :
    (∃ e, env.openFile path = Res.err e ∧
      grabIptablesLocks env path s =
        ((none, some ("failed to open iptables lock " ++ path ++ ": " ++ e)),
          { s with trace := s.trace ++ [SysCall.OpenFile path (Res.err e)] })) ∨
    (∃ f evs, env.openFile path = Res.ok f ∧
      (¬ ∃ i, i < env.ticks16 + 1 ∧ env.flock (s.flockCalls + i) = none) ∧
      (grabIptablesLocks env path s).1 =
        (none, some ("failed to acquire new iptables lock: " ++ DeadlineExceeded)) ∧
      (grabIptablesLocks env path s).2.trace =
        s.trace ++ SysCall.OpenFile path (Res.ok f) :: evs ++
          [SysCall.FileClose f (env.fileClose f)] ∧
      (∀ e ∈ evs, ∃ res, e = SysCall.Flock f res) ∧ evs.length = env.ticks16 + 1) ∨
    (∃ f evs evs2, env.openFile path = Res.ok f ∧
      (∃ i, i < env.ticks16 + 1 ∧ env.flock (s.flockCalls + i) = none) ∧
      (¬ ∃ j, j < env.ticks14 + 1 ∧ ∃ ls, env.listenUnix (s.listenCalls + j) = Res.ok ls) ∧
      (grabIptablesLocks env path s).1 =
        (none, some ("failed to acquire old iptables lock: " ++ DeadlineExceeded)) ∧
      (grabIptablesLocks env path s).2.trace =
        s.trace ++ SysCall.OpenFile path (Res.ok f) :: evs ++ evs2 ++
          [SysCall.FileClose f (env.fileClose f)] ∧
      (∀ e ∈ evs, ∃ res, e = SysCall.Flock f res) ∧
      (∀ e ∈ evs2, failedBind e) ∧ evs2.length = env.ticks14 + 1) ∨
    (∃ f ls evs evs2 j, env.openFile path = Res.ok f ∧
      (∃ i, i < env.ticks16 + 1 ∧ env.flock (s.flockCalls + i) = none) ∧
      j < env.ticks14 + 1 ∧ env.listenUnix (s.listenCalls + j) = Res.ok ls ∧
      (grabIptablesLocks env path s).1 = (some ⟨some f, some ls⟩, none) ∧
      (grabIptablesLocks env path s).2.trace =
        s.trace ++ SysCall.OpenFile path (Res.ok f) :: evs ++ evs2 ++
          [SysCall.ListenUnix "@xtables" (Res.ok ls)] ∧
      (∀ e ∈ evs, ∃ res, e = SysCall.Flock f res) ∧
      (∀ e ∈ evs2, failedBind e)) := by
  cases ho : env.openFile path with
  | err e =>
    left
    refine ⟨e, rfl, ?_⟩
    simp [grabIptablesLocks, grabBody, OpenFile, ho, locker_Close_eq, closeCalls]
  | ok f =>
    right
    obtain ⟨⟨a1, a2⟩, a3, a4, evs, a5, a6, a7⟩ := pollLoop_fileLock env f (env.ticks16 + 1)
      ⟨some f, none⟩ { s with trace := s.trace ++ [SysCall.OpenFile path (Res.ok f)] }
    rcases hp : pollLoop (fileLockCondition env f) (env.ticks16 + 1)
      (⟨some f, none⟩, { s with trace := s.trace ++ [SysCall.OpenFile path (Res.ok f)] })
      with ⟨r, l1, s1⟩
    rw [hp] at a1 a2 a3 a4 a5 a7
    simp only at a1 a2 a3 a4 a5 a7
    subst a1
    cases r with
    | some e =>
      left
      have he : e = DeadlineExceeded := by
        rcases a3 with a3 | a3
        · cases a3
        · exact Option.some.inj a3
      subst he
      refine ⟨f, evs, rfl, ?_, ?_, ?_, a6, a7 (by simp)⟩
      · rw [← a4]
        simp
      · simp [grabIptablesLocks, grabBody, OpenFile, ho, PollUntilContextTimeout_eq_pollLoop, hp]
      · simp [grabIptablesLocks, grabBody, OpenFile, ho, PollUntilContextTimeout_eq_pollLoop, hp,
          locker_Close_eq, closeCalls, a5]
    | none =>
      right
      have hi := a4.mp rfl
      obtain ⟨b1, b3, b4, evs2, b5, b6, b7⟩ := pollLoop_bind env (env.ticks14 + 1)
        ⟨some f, none⟩ s1
      rcases hq : pollLoop (bindCondition env) (env.ticks14 + 1) (⟨some f, none⟩, s1)
        with ⟨r2, l2, s2⟩
      rw [hq] at b1 b3 b4 b5 b6 b7
      simp only at b1 b3 b4 b5 b6 b7
      rw [a2] at b4 b7
      cases r2 with
      | some e =>
        left
        have he : e = DeadlineExceeded := by
          rcases b3 with b3 | b3
          · cases b3
          · exact Option.some.inj b3
        subst he
        obtain ⟨c1, c2, c3⟩ := b6 (by simp)
        have c4 := c3 (Nat.succ_pos _)
        refine ⟨f, evs, evs2, rfl, hi, ?_, ?_, ?_, a6, c2, c1⟩
        · rw [← b4]
          simp
        · simp [grabIptablesLocks, grabBody, OpenFile, ho, PollUntilContextTimeout_eq_pollLoop,
            hp, hq]
        · have hl2 : l2 = ⟨some f, none⟩ := by
            cases l2
            simp only at b1 c4
            subst b1
            subst c4
            rfl
          subst hl2
          simp [grabIptablesLocks, grabBody, OpenFile, ho, PollUntilContextTimeout_eq_pollLoop,
            hp, hq, locker_Close_eq, closeCalls, a5, b5]
      | none =>
        right
        obtain ⟨pre, ls, j, c1, c2, c3, c4, c5⟩ := b7 rfl
        have hl2 : l2 = ⟨some f, some ls⟩ := by
          cases l2
          simp only at b1 c5
          subst b1
          subst c5
          rfl
        subst hl2
        refine ⟨f, ls, evs, pre, j, rfl, hi, c3, c4, ?_, ?_, a6, c2⟩
        · simp [grabIptablesLocks, grabBody, OpenFile, ho, PollUntilContextTimeout_eq_pollLoop,
            hp, hq]
        · simp [grabIptablesLocks, grabBody, OpenFile, ho, PollUntilContextTimeout_eq_pollLoop,
            hp, hq, a5, b5, c1]

/-! ### The claims on the lock -/

/-- C5: `grabIptablesLocks` returns a lock and a nil error if and only if the open of the lock
file succeeded, some file-lock attempt among the `ticks16 + 1` attempts of the first poll
succeeded, and some bind attempt among the `ticks14 + 1` attempts of the second poll
succeeded; a lock is returned exactly when the error is nil; the returned locker holds both
halves, the opened file and the listener of the successful bind; and the two poll conditions
never return an error: a failed attempt yields "not done" with a nil error. -/
theorem grabIptablesLocks_succeeds_iff (env : Sys) (path : String) (s : SysState) :
    (((grabIptablesLocks env path s).1.1.isSome = true ∧
        (grabIptablesLocks env path s).1.2 = none) ↔
      ((∃ f, env.openFile path = Res.ok f) ∧
        (∃ i, i ≤ env.ticks16 ∧ env.flock (s.flockCalls + i) = none) ∧
        (∃ j, j ≤ env.ticks14 ∧ ∃ ls, env.listenUnix (s.listenCalls + j) = Res.ok ls))) ∧
    ((grabIptablesLocks env path s).1.1.isSome = true ↔
      (grabIptablesLocks env path s).1.2 = none) ∧
    (∀ l, (grabIptablesLocks env path s).1.1 = some l →
      ∃ f ls j, l = ⟨some f, some ls⟩ ∧ env.openFile path = Res.ok f ∧
        j ≤ env.ticks14 ∧ env.listenUnix (s.listenCalls + j) = Res.ok ls) ∧
    (∀ f st, (fileLockCondition env f st).1.2 = none) ∧
    (∀ st, (bindCondition env st).1.2 = none) ∧
    (∀ f st msg, env.flock st.2.flockCalls = some msg →
      (fileLockCondition env f st).1 = (false, none)) ∧
    (∀ st msg, env.listenUnix st.2.listenCalls = Res.err msg →
      (bindCondition env st).1 = (false, none)) := by
  refine ⟨?_, ?_, ?_, ?_, ?_, ?_, ?_⟩
  · rcases grabIptablesLocks_cases env path s with
      ⟨e, ho, h⟩ | ⟨f, evs, ho, hn, h, -⟩ | ⟨f, evs, evs2, ho, hi, hn, h, -⟩ |
      ⟨f, ls, evs, evs2, j, ho, ⟨i, hi, hfl⟩, hj, hl, h, -⟩
    · rw [h]
      simp [ho]
    · rw [h]
      simp only [Option.isSome_none, Bool.false_eq_true, false_and, false_iff, not_and]
      rintro - ⟨i, hi, hfl⟩
      exact absurd ⟨i, Nat.lt_succ_of_le hi, hfl⟩ hn
    · rw [h]
      simp only [Option.isSome_none, Bool.false_eq_true, false_and, false_iff, not_and]
      rintro - - ⟨j, hj, ls, hl⟩
      exact absurd ⟨j, Nat.lt_succ_of_le hj, ls, hl⟩ hn
    · rw [h]
      simp only [Option.isSome_some, and_self, true_iff]
      exact ⟨⟨f, ho⟩, ⟨i, Nat.le_of_lt_succ hi, hfl⟩, ⟨j, Nat.le_of_lt_succ hj, ls, hl⟩⟩
  · rcases grabIptablesLocks_cases env path s with
      ⟨e, ho, h⟩ | ⟨f, evs, ho, hn, h, -⟩ | ⟨f, evs, evs2, ho, hi, hn, h, -⟩ |
      ⟨f, ls, evs, evs2, j, ho, hi, hj, hl, h, -⟩ <;> rw [h] <;> simp
  · intro l hl
    rcases grabIptablesLocks_cases env path s with
      ⟨e, ho, h⟩ | ⟨f, evs, ho, hn, h, -⟩ | ⟨f, evs, evs2, ho, hi, hn, h, -⟩ |
      ⟨f, ls, evs, evs2, j, ho, hi, hj, hls, h, -⟩
    · rw [h] at hl
      cases hl
    · rw [h] at hl
      cases hl
    · rw [h] at hl
      cases hl
    · rw [h] at hl
      exact ⟨f, ls, j, (Option.some.inj hl).symm, ho, Nat.le_of_lt_succ hj, hls⟩
  · intro f st
    cases h : env.flock st.2.flockCalls <;> simp [fileLockCondition, grabIptablesFileLock, h]
  · intro st
    cases h : env.listenUnix st.2.listenCalls <;> simp [bindCondition, ListenUnix, h]
  · intro f st msg h
    simp [fileLockCondition, grabIptablesFileLock, h]
  · intro st msg h
    simp [bindCondition, ListenUnix, h]

/-- The lock is granted when nothing is in the way: with every call succeeding at the first
attempt, `grabIptablesLocks` makes three calls (open, lock, bind) and returns the locker with
both halves. -/
theorem grabIptablesLocks_free_evaluated :
    grabIptablesLocks freeEnv "/run/xtables.lock" SysState.init =
      ((some ⟨some 3, some 4⟩, none),
        ⟨1, 1, [SysCall.OpenFile "/run/xtables.lock" (Res.ok 3), SysCall.Flock 3 none,
          SysCall.ListenUnix "@xtables" (Res.ok 4)]⟩) := by
  decide

/-- C6: `locker.Close` on a locker that holds both halves calls the close of the file and
then the close of the endpoint, whatever the two closes return; the aggregate it returns is
nil if and only if neither close failed, and otherwise holds the error of every half whose
close failed.  For any locker, each half that is held is closed. -/
theorem locker_Close_releases_both_halves (env : Sys) (f : File) (ls : UnixListener)
    (l : locker) (s : SysState) :
    (locker.Close env ⟨some f, some ls⟩ s).2.trace =
      s.trace ++ [SysCall.FileClose f (env.fileClose f),
        SysCall.ListenerClose ls (env.listenerClose ls)] ∧
    ((locker.Close env ⟨some f, some ls⟩ s).1 = none ↔
      (env.fileClose f = none ∧ env.listenerClose ls = none)) ∧
    (∀ e, env.fileClose f = some e →
      ∃ errs, (locker.Close env ⟨some f, some ls⟩ s).1 = some errs ∧ e ∈ errs) ∧
    (∀ e, env.listenerClose ls = some e →
      ∃ errs, (locker.Close env ⟨some f, some ls⟩ s).1 = some errs ∧ e ∈ errs) ∧
    (∀ errs e, (locker.Close env ⟨some f, some ls⟩ s).1 = some errs → e ∈ errs →
      (env.fileClose f = some e ∨ env.listenerClose ls = some e)) ∧
    (∀ g, l.lock16 = some g →
      SysCall.FileClose g (env.fileClose g) ∈ (locker.Close env l s).2.trace) ∧
    (∀ g, l.lock14 = some g →
      SysCall.ListenerClose g (env.listenerClose g) ∈ (locker.Close env l s).2.trace) := by
  refine ⟨?_, ?_, ?_, ?_, ?_, ?_, ?_⟩
  · simp [locker_Close_eq, closeCalls]
  · cases h1 : env.fileClose f <;> cases h2 : env.listenerClose ls <;>
      simp [locker_Close_eq, closeErrors, NewAggregate, h1, h2]
  · intro e h1
    cases h2 : env.listenerClose ls <;>
      simp [locker_Close_eq, closeErrors, NewAggregate, h1, h2]
  · intro e h2
    cases h1 : env.fileClose f <;>
      simp [locker_Close_eq, closeErrors, NewAggregate, h1, h2]
  · intro errs e
    cases h1 : env.fileClose f <;> cases h2 : env.listenerClose ls <;>
      simp [locker_Close_eq, closeErrors, NewAggregate, h1, h2] <;> aesop
  · intro g hg
    rcases l with ⟨l16, l14⟩
    simp only at hg
    subst hg
    simp [locker_Close_eq, closeCalls]
  · intro g hg
    rcases l with ⟨l16, l14⟩
    simp only at hg
    subst hg
    simp [locker_Close_eq, closeCalls]

/-- A run of file-lock attempts and failed binds holds no handle: it leaves `heldAfter`
unchanged. -/
theorem foldl_attempts (f : File) (evs : List SysCall)
    (h : ∀ e ∈ evs, (∃ res, e = SysCall.Flock f res) ∨ failedBind e)
    (acc : List File × List UnixListener) :
    evs.foldl (fun acc e =>
      match e with
      | SysCall.OpenFile _ (Res.ok f) => (f :: acc.1, acc.2)
      | SysCall.ListenUnix _ (Res.ok ls) => (acc.1, ls :: acc.2)
      | SysCall.FileClose f _ => (acc.1.erase f, acc.2)
      | SysCall.ListenerClose ls _ => (acc.1, acc.2.erase ls)
      | _ => acc) acc = acc := by
  induction evs generalizing acc with
  | nil => rfl
  | cons e rest ih =>
    have hr : ∀ e ∈ rest, (∃ res, e = SysCall.Flock f res) ∨ failedBind e :=
      fun x hx => h x (List.mem_cons_of_mem _ hx)
    rcases h e (List.mem_cons_self _ _) with ⟨res, he⟩ | ⟨msg, he⟩
    · subst he
      simpa using ih hr acc
    · subst he
      simpa using ih hr acc

/-- C7: when `grabIptablesLocks` returns no lock, it returns an error, and what it acquired
has been released before it returns: if the lock file was opened, the calls of the run are
the open, then file-lock attempts and failed bind attempts only, then, as the last call, the
close of the opened file; no bind succeeded, so no endpoint is bound; if the open failed, the
open is the only call.  After the calls of the run no file and no endpoint is held. -/
theorem grabIptablesLocks_failure_releases (env : Sys) (path : String) (s : SysState)
    (hfail : (grabIptablesLocks env path s).1.1 = none) :
    (grabIptablesLocks env path s).1.2 ≠ none ∧
    (∀ f, env.openFile path = Res.ok f →
      ∃ evs, (grabIptablesLocks env path s).2.trace =
          s.trace ++ SysCall.OpenFile path (Res.ok f) :: evs ++
            [SysCall.FileClose f (env.fileClose f)] ∧
        (∀ e ∈ evs, (∃ res, e = SysCall.Flock f res) ∨ failedBind e)) ∧
    (∀ msg, env.openFile path = Res.err msg →
      (grabIptablesLocks env path s).2.trace =
        s.trace ++ [SysCall.OpenFile path (Res.err msg)]) ∧
    (∃ new, (grabIptablesLocks env path s).2.trace = s.trace ++ new ∧
      (∀ ls name, SysCall.ListenUnix name (Res.ok ls) ∉ new) ∧
      heldAfter new = ([], [])) := by
  rcases grabIptablesLocks_cases env path s with
    ⟨e, ho, h⟩ | ⟨f, evs, ho, hn, h, ht, hev, -⟩ | ⟨f, evs, evs2, ho, hi, hn, h, ht, hev, hev2, -⟩ |
    ⟨f, ls, evs, evs2, j, ho, hi, hj, hl, h, -⟩
  · refine ⟨by simp [h], ?_, ?_, [SysCall.OpenFile path (Res.err e)], by simp [h], ?_, ?_⟩
    · intro f hf
      rw [ho] at hf
      cases hf
    · intro msg hm
      rw [ho] at hm
      cases hm
      simp [h]
    · simp
    · simp [heldAfter]
  · have hall : ∀ e ∈ evs, (∃ res, e = SysCall.Flock f res) ∨ failedBind e :=
      fun e he => Or.inl (hev e he)
    refine ⟨by simp [h], ?_, ?_,
      SysCall.OpenFile path (Res.ok f) :: evs ++ [SysCall.FileClose f (env.fileClose f)],
      by simp [ht], ?_, ?_⟩
    · intro g hg
      rw [ho] at hg
      cases hg
      exact ⟨evs, ht, hall⟩
    · intro msg hm
      rw [ho] at hm
      cases hm
    · intro ls name hmem
      have hmem2 : SysCall.ListenUnix name (Res.ok ls) ∈ evs := by simpa using hmem
      rcases hall _ hmem2 with ⟨res, he⟩ | ⟨msg, he⟩
      · cases he
      · cases he
    · simp only [heldAfter, List.cons_append, List.foldl_cons, List.foldl_append,
        List.foldl_nil]
      rw [foldl_attempts f evs hall]
      simp
  · have hall : ∀ e ∈ evs ++ evs2, (∃ res, e = SysCall.Flock f res) ∨ failedBind e := by
      intro e he
      rcases List.mem_append.mp he with he | he
      · exact Or.inl (hev e he)
      · exact Or.inr (hev2 e he)
    have ht2 : (grabIptablesLocks env path s).2.trace =
        s.trace ++ SysCall.OpenFile path (Res.ok f) :: (evs ++ evs2) ++
          [SysCall.FileClose f (env.fileClose f)] := by
      rw [ht]
      simp
    refine ⟨by simp [h], ?_, ?_,
      SysCall.OpenFile path (Res.ok f) :: (evs ++ evs2) ++
        [SysCall.FileClose f (env.fileClose f)],
      by simp [ht], ?_, ?_⟩
    · intro g hg
      rw [ho] at hg
      cases hg
      exact ⟨evs ++ evs2, ht2, hall⟩
    · intro msg hm
      rw [ho] at hm
      cases hm
    · intro ls name hmem
      have hmem2 : SysCall.ListenUnix name (Res.ok ls) ∈ evs ++ evs2 := by simpa using hmem
      rcases hall _ hmem2 with ⟨res, he⟩ | ⟨msg, he⟩
      · cases he
      · cases he
    · simp only [heldAfter, List.cons_append, List.foldl_cons, List.foldl_append,
        List.foldl_nil]
      have := foldl_attempts f (evs ++ evs2) hall
      simp only [List.foldl_append] at this
      rw [this]
      simp
  · rw [h] at hfail
    cases hfail

/-- C7, at a concrete input: the file lock is never granted, the lock file is closed. -/
theorem grabIptablesLocks_failure_releases_witness :
    (grabIptablesLocks busyEnv "/run/xtables.lock" SysState.init).1.1 = none ∧
    ∃ new, (grabIptablesLocks busyEnv "/run/xtables.lock" SysState.init).2.trace =
        SysState.init.trace ++ new ∧
      (∀ ls name, SysCall.ListenUnix name (Res.ok ls) ∉ new) ∧
      heldAfter new = ([], []) :=
  ⟨by decide,
    (grabIptablesLocks_failure_releases busyEnv "/run/xtables.lock" SysState.init
      (by decide)).2.2.2⟩

/-- C8, as stated, fails: when the file lock is never granted and the close of the lock file
fails with "input/output error", the error `grabIptablesLocks` returns does not report the
close error. -/
theorem grabIptablesLocks_drops_release_error :
    ¬ ReleaseErrorsReported busyEnv "/run/xtables.lock" SysState.init := by
  intro h
  have hfail : (grabIptablesLocks busyEnv "/run/xtables.lock" SysState.init).1.1 = none := by
    decide
  have hmem : SysCall.FileClose 3 (some "input/output error") ∈
      (grabIptablesLocks busyEnv "/run/xtables.lock" SysState.init).2.trace := by
    decide
  obtain ⟨msg, hmsg, hc⟩ := h hfail 3 "input/output error" hmem
  have hret : (grabIptablesLocks busyEnv "/run/xtables.lock" SysState.init).1.2 =
      some "failed to acquire new iptables lock: context deadline exceeded" := by
    decide
  rw [hret] at hmsg
  cases hmsg
  revert hc
  decide

/-- The pair `grabIptablesLocks` returns is the one its body computed: the deferred function
does not touch it. -/
theorem grabIptablesLocks_fst (env : Sys) (path : String) (s : SysState) :
    (grabIptablesLocks env path s).1 = (grabBody env path ⟨none, none⟩ s).ret := by
  unfold grabIptablesLocks
  simp only
  split <;> rfl

/-- C8, amended: what `grabIptablesLocks` returns does not depend on what the closes of its
clean-up return (the returned pair is the same under any other close outcomes `fc`, `lc`).
When the open fails, the open error is returned and the open is the only call.  When the
open succeeds and none of the `ticks16 + 1` file-lock attempts does, the timeout of the
file-lock poll is returned and the calls are the open, the `ticks16 + 1` attempts and, last,
the close of the opened file by the deferred clean-up.  When a file-lock attempt succeeds and
none of the `ticks14 + 1` bind attempts does, the timeout of the bind poll is returned and
the calls are the open, the file-lock attempts, the `ticks14 + 1` failed bind attempts and,
last, the close of the opened file.  In both timeout cases the returned error is that text
whatever the close returned.  No lock is returned in these three cases only. -/
theorem grabIptablesLocks_error_is_primary (env : Sys) (path : String) (s : SysState)
    (fc : File → Option String) (lc : UnixListener → Option String) :
    (grabIptablesLocks { env with fileClose := fc, listenerClose := lc } path s).1 =
      (grabIptablesLocks env path s).1 ∧
    (∀ e, env.openFile path = Res.err e →
      (grabIptablesLocks env path s).1 =
        (none, some ("failed to open iptables lock " ++ path ++ ": " ++ e)) ∧
      (grabIptablesLocks env path s).2.trace =
        s.trace ++ [SysCall.OpenFile path (Res.err e)]) ∧
    (∀ f, env.openFile path = Res.ok f →
      (¬ ∃ i, i ≤ env.ticks16 ∧ env.flock (s.flockCalls + i) = none) →
      (grabIptablesLocks env path s).1 =
        (none, some ("failed to acquire new iptables lock: " ++ DeadlineExceeded)) ∧
      ∃ evs, (grabIptablesLocks env path s).2.trace =
          s.trace ++ SysCall.OpenFile path (Res.ok f) :: evs ++
            [SysCall.FileClose f (env.fileClose f)] ∧
        (∀ e ∈ evs, ∃ res, e = SysCall.Flock f res) ∧ evs.length = env.ticks16 + 1) ∧
    (∀ f, env.openFile path = Res.ok f →
      (∃ i, i ≤ env.ticks16 ∧ env.flock (s.flockCalls + i) = none) →
      (¬ ∃ j, j ≤ env.ticks14 ∧ ∃ ls, env.listenUnix (s.listenCalls + j) = Res.ok ls) →
      (grabIptablesLocks env path s).1 =
        (none, some ("failed to acquire old iptables lock: " ++ DeadlineExceeded)) ∧
      ∃ evs evs2, (grabIptablesLocks env path s).2.trace =
          s.trace ++ SysCall.OpenFile path (Res.ok f) :: evs ++ evs2 ++
            [SysCall.FileClose f (env.fileClose f)] ∧
        (∀ e ∈ evs, ∃ res, e = SysCall.Flock f res) ∧
        (∀ e ∈ evs2, failedBind e) ∧ evs2.length = env.ticks14 + 1) ∧
    ((grabIptablesLocks env path s).1.1 = none →
      ((∃ e, env.openFile path = Res.err e) ∨
        (∃ f, env.openFile path = Res.ok f ∧
          ¬ ∃ i, i ≤ env.ticks16 ∧ env.flock (s.flockCalls + i) = none) ∨
        (∃ f, env.openFile path = Res.ok f ∧
          (∃ i, i ≤ env.ticks16 ∧ env.flock (s.flockCalls + i) = none) ∧
          ¬ ∃ j, j ≤ env.ticks14 ∧ ∃ ls, env.listenUnix (s.listenCalls + j) = Res.ok ls))) := by
  have lt16 : (∃ i, i < env.ticks16 + 1 ∧ env.flock (s.flockCalls + i) = none) ↔
      ∃ i, i ≤ env.ticks16 ∧ env.flock (s.flockCalls + i) = none :=
    ⟨fun ⟨i, a, b⟩ => ⟨i, Nat.le_of_lt_succ a, b⟩, fun ⟨i, a, b⟩ => ⟨i, Nat.lt_succ_of_le a, b⟩⟩
  have lt14 : (∃ j, j < env.ticks14 + 1 ∧ ∃ ls, env.listenUnix (s.listenCalls + j) = Res.ok ls) ↔
      ∃ j, j ≤ env.ticks14 ∧ ∃ ls, env.listenUnix (s.listenCalls + j) = Res.ok ls :=
    ⟨fun ⟨i, a, b⟩ => ⟨i, Nat.le_of_lt_succ a, b⟩, fun ⟨i, a, b⟩ => ⟨i, Nat.lt_succ_of_le a, b⟩⟩
  refine ⟨?_, ?_, ?_, ?_, ?_⟩
  · rw [grabIptablesLocks_fst, grabIptablesLocks_fst]
    rfl
  · intro e he
    rcases grabIptablesLocks_cases env path s with
      ⟨e2, ho, h⟩ | ⟨f, evs, ho, -⟩ | ⟨f, evs, evs2, ho, -⟩ | ⟨f, ls, evs, evs2, j, ho, -⟩
    · rw [he] at ho
      cases ho
      rw [h]
      exact ⟨rfl, rfl⟩
    · rw [he] at ho
      cases ho
    · rw [he] at ho
      cases ho
    · rw [he] at ho
      cases ho
  · intro f hf hn
    rcases grabIptablesLocks_cases env path s with
      ⟨e2, ho, h⟩ | ⟨g, evs, ho, -, h, ht, hev, hl⟩ | ⟨g, evs, evs2, ho, hi, -⟩ |
      ⟨g, ls, evs, evs2, j, ho, hi, -⟩
    · rw [hf] at ho
      cases ho
    · rw [hf] at ho
      cases ho
      exact ⟨h, evs, ht, hev, hl⟩
    · exact absurd (lt16.mp hi) hn
    · exact absurd (lt16.mp hi) hn
  · intro f hf hi hn
    rcases grabIptablesLocks_cases env path s with
      ⟨e2, ho, h⟩ | ⟨g, evs, ho, hn2, -⟩ | ⟨g, evs, evs2, ho, -, -, h, ht, hev, hev2, hl⟩ |
      ⟨g, ls, evs, evs2, j, ho, -, hj, hls, -⟩
    · rw [hf] at ho
      cases ho
    · exact absurd (lt16.mpr hi) hn2
    · rw [hf] at ho
      cases ho
      exact ⟨h, evs, evs2, ht, hev, hev2, hl⟩
    · exact absurd (lt14.mp ⟨j, hj, ls, hls⟩) hn
  · intro hfail
    rcases grabIptablesLocks_cases env path s with
      ⟨e2, ho, h⟩ | ⟨g, evs, ho, hn2, -⟩ | ⟨g, evs, evs2, ho, hi, hn2, -⟩ |
      ⟨g, ls, evs, evs2, j, ho, -, -, -, h, -⟩
    · exact Or.inl ⟨e2, ho⟩
    · exact Or.inr (Or.inl ⟨g, ho, fun h => hn2 (lt16.mpr h)⟩)
    · exact Or.inr (Or.inr ⟨g, ho, lt16.mp hi, fun h => hn2 (lt14.mpr h)⟩)
    · rw [h] at hfail
      cases hfail

/-- C8 amended, at a concrete input: the file lock is never granted and the close of the lock
file fails; the timeout of the file-lock poll is returned, and the close of the opened file
is the last of the calls. -/
theorem grabIptablesLocks_error_is_primary_witness :
    (grabIptablesLocks busyEnv "/run/xtables.lock" SysState.init).1 =
      (none, some ("failed to acquire new iptables lock: " ++ DeadlineExceeded)) ∧
    ∃ evs, (grabIptablesLocks busyEnv "/run/xtables.lock" SysState.init).2.trace =
        SysState.init.trace ++ SysCall.OpenFile "/run/xtables.lock" (Res.ok 3) :: evs ++
          [SysCall.FileClose 3 (busyEnv.fileClose 3)] ∧
      (∀ e ∈ evs, ∃ res, e = SysCall.Flock 3 res) ∧ evs.length = busyEnv.ticks16 + 1 :=
  (grabIptablesLocks_error_is_primary busyEnv "/run/xtables.lock" SysState.init
    busyEnv.fileClose busyEnv.listenerClose).2.2.1 3 rfl
    (by rintro ⟨i, -, h⟩; cases h)

end iptables

namespace app

/-! ### Traces of calls -/

theorem calls_append (a b : List Event) : calls (a ++ b) = calls a ++ calls b := by
  simp [calls]

theorem calls_klog {σ : Type} (severity : Severity) (format : String) (w : World σ) :
    calls (klog severity format w).trace = calls w.trace := by
  simp [klog, calls, Event.isCall]

theorem calls_EnsureRule {σ : Type} (H : Host σ) (position : RulePosition) (rule : iptablesRule)
    (w : World σ) :
    calls (EnsureRule H position rule w).2.trace =
      calls w.trace ++ [Event.EnsureRule position rule.table rule.chain rule.args] := by
  simp [EnsureRule, calls, Event.isCall]

theorem calls_DeleteRule {σ : Type} (H : Host σ) (rule : iptablesRule) (w : World σ) :
    calls (DeleteRule H rule w).2.trace =
      calls w.trace ++ [Event.DeleteRule rule.table rule.chain rule.args] := by
  simp [DeleteRule, calls, Event.isCall]

theorem calls_EnsureIPAddress {σ : Type} (H : Host σ) (w : World σ) :
    calls (EnsureIPAddress H w).2.trace = calls w.trace ++ [Event.EnsureIPAddress] := by
  simp [EnsureIPAddress, calls, Event.isCall]

theorem calls_RemoveIPAddress {σ : Type} (H : Host σ) (w : World σ) :
    calls (RemoveIPAddress H w).2.trace = calls w.trace ++ [Event.RemoveIPAddress] := by
  simp [RemoveIPAddress, calls, Event.isCall]

/-- The rule loop of `runChecks` calls `EnsureRule(Prepend, ...)` once for each rule, in list
order, whatever the calls return. -/
theorem calls_ensureRules {σ : Type} (H : Host σ) (rules : List iptablesRule) :
    ∀ w : World σ, calls (ensureRules H rules w).trace =
      calls w.trace ++ rules.map ensureCall := by
  induction rules with
  | nil => intro w; simp [ensureRules]
  | cons rule rest ih =>
    intro w
    rw [ensureRules, ih]
    have key : ∀ w1 : World σ,
        calls w1.trace = calls (EnsureRule H RulePosition.Prepend rule w).2.trace →
        calls w1.trace ++ List.map ensureCall rest =
          calls w.trace ++ List.map ensureCall (rule :: rest) := by
      intro w1 h1
      rw [h1, calls_EnsureRule]
      simp [ensureCall]
    apply key
    split
    · exact calls_klog _ _ _
    · split
      · exact calls_klog _ _ _
      · split
        · exact calls_klog _ _ _
        · exact calls_klog _ _ _

/-- One pass of `runChecks` makes the calls `passCalls`. -/
theorem calls_runChecks {σ : Type} (H : Host σ) (c : SidecarApp) (w : World σ) :
    calls (runChecks H c w).trace = calls w.trace ++ passCalls c := by
  unfold runChecks
  simp only
  rw [calls_klog]
  have h3 : ∀ w2 : World σ,
      calls (if (EnsureIPAddress H w2).1.isSome = true then
          klog Severity.Error "Error ensuring ip address: %v" (EnsureIPAddress H w2).2
        else (EnsureIPAddress H w2).2).trace = calls w2.trace ++ [Event.EnsureIPAddress] := by
    intro w2
    split
    · rw [calls_klog, calls_EnsureIPAddress]
    · rw [calls_EnsureIPAddress]
  rw [h3, calls_klog]
  unfold passCalls
  split
  · rw [calls_ensureRules]
    simp
  · simp

/-- C1: one pass of `runChecks` makes, whatever the collaborators return (rule present, rule
added, lock-busy error, other error), exactly these calls: with `SetupIptables` set, one
`EnsureRule(Prepend, ...)` for every rule of the list, in list order, and then one
`EnsureIPAddress`; with `SetupIptables` not set, the one `EnsureIPAddress` only. -/
theorem runChecks_calls_each_rule_then_address {σ : Type} (H : Host σ) (c : SidecarApp)
    (w : World σ) :
    calls (runChecks H c w).trace =
      calls w.trace ++
        (if c.params.SetupIptables then
          c.iptablesRules.map (fun rule =>
            Event.EnsureRule RulePosition.Prepend rule.table rule.chain rule.args)
        else []) ++ [Event.EnsureIPAddress] := by
  rw [calls_runChecks]
  simp only [passCalls, List.append_assoc]
  rfl

/-- C2: on a freshly constructed app, for every address and port, `getIPTables` builds
exactly the five rules of the battery, in order. -/
theorem getIPTables_builds_battery (netipParseAddr : String → Except String Nat)
    (netlinkParseAddr : String → Except String (Option String)) (params : ConfigParams)
    (c : SidecarApp) (h : NewSidecarApp netipParseAddr netlinkParseAddr params = Except.ok c) :
    (getIPTables c).iptablesRules = [
      ⟨"raw", "PREROUTING",
        ["-p", "tcp", "-d", params.IPAddress, "--dport", params.LocalPort, "-j", "NOTRACK"]⟩,
      ⟨"filter", "INPUT",
        ["-p", "tcp", "-d", params.IPAddress, "--dport", params.LocalPort, "-j", "ACCEPT"]⟩,
      ⟨"raw", "OUTPUT",
        ["-p", "tcp", "-s", params.IPAddress, "--sport", params.LocalPort, "-j", "NOTRACK"]⟩,
      ⟨"filter", "OUTPUT",
        ["-p", "tcp", "-s", params.IPAddress, "--sport", params.LocalPort, "-j", "ACCEPT"]⟩,
      ⟨"raw", "OUTPUT",
        ["-p", "tcp", "-d", params.IPAddress, "--dport", params.LocalPort, "-j", "NOTRACK"]⟩] := by
  have hc : c.params = params ∧ c.iptablesRules = [] := by
    unfold NewSidecarApp at h
    split at h
    · cases h
    · split at h
      · cases h
      · cases h
      · cases h
        exact ⟨rfl, rfl⟩
  simp [getIPTables, hc.1, hc.2, TableFilter, ChainPrerouting, ChainInput, ChainOutput]

/-- C2, at the literal scenario: address 100.64.0.1, port "443". -/
theorem getIPTables_builds_battery_witness :
    (getIPTables fresh443).iptablesRules = [
      ⟨"raw", "PREROUTING", ["-p", "tcp", "-d", "100.64.0.1", "--dport", "443", "-j", "NOTRACK"]⟩,
      ⟨"filter", "INPUT", ["-p", "tcp", "-d", "100.64.0.1", "--dport", "443", "-j", "ACCEPT"]⟩,
      ⟨"raw", "OUTPUT", ["-p", "tcp", "-s", "100.64.0.1", "--sport", "443", "-j", "NOTRACK"]⟩,
      ⟨"filter", "OUTPUT", ["-p", "tcp", "-s", "100.64.0.1", "--sport", "443", "-j", "ACCEPT"]⟩,
      ⟨"raw", "OUTPUT", ["-p", "tcp", "-d", "100.64.0.1", "--dport", "443", "-j", "NOTRACK"]⟩] :=
  getIPTables_builds_battery (fun _ => Except.ok 32) (fun _ => Except.ok (some "100.64.0.1/32"))
    params443 fresh443 rfl

/-! ### The teardown on the kernel model -/

theorem DeleteRule_kernel (rule : iptablesRule) (k : List iptablesRule) (tr : List Event) :
    DeleteRule kernelHost rule ⟨k, tr⟩ =
      (none, ⟨k.erase rule, tr ++ [Event.DeleteRule rule.table rule.chain rule.args]⟩) := rfl

theorem EnsureRule_kernel_mem (rule : iptablesRule) (k : List iptablesRule) (tr : List Event)
    (h : rule ∈ k) :
    EnsureRule kernelHost RulePosition.Prepend rule ⟨k, tr⟩ =
      ((true, none), ⟨k, tr ++ [ensureCall rule]⟩) := by
  rcases rule with ⟨t, c, a⟩
  simp [EnsureRule, kernelHost, h, ensureCall]

theorem EnsureRule_kernel_not_mem (rule : iptablesRule) (k : List iptablesRule)
    (tr : List Event) (h : rule ∉ k) :
    EnsureRule kernelHost RulePosition.Prepend rule ⟨k, tr⟩ =
      ((false, none), ⟨rule :: k, tr ++ [ensureCall rule]⟩) := by
  rcases rule with ⟨t, c, a⟩
  simp [EnsureRule, kernelHost, h, ensureCall]

/-- One round of the delete loop on the kernel: delete one instance, then go on if another
instance is left, and otherwise leave the loop with the instance `EnsureRule` put back. -/
theorem deleteWhileExists_kernel_succ (rule : iptablesRule) (fuel : Nat)
    (k : List iptablesRule) (tr : List Event) :
    deleteWhileExists kernelHost rule (fuel + 1) ⟨k, tr⟩ =
      if rule ∈ k.erase rule then
        deleteWhileExists kernelHost rule fuel
          ⟨k.erase rule,
            tr ++ [Event.DeleteRule rule.table rule.chain rule.args] ++ [ensureCall rule]⟩
      else
        (⟨rule :: k.erase rule,
          tr ++ [Event.DeleteRule rule.table rule.chain rule.args] ++ [ensureCall rule]⟩, true) := by
  by_cases h : rule ∈ k.erase rule
  · simp [deleteWhileExists, DeleteRule_kernel, EnsureRule_kernel_mem _ _ _ h, h]
  · simp [deleteWhileExists, DeleteRule_kernel, EnsureRule_kernel_not_mem _ _ _ h, h]

/-- The delete loop on the kernel is left as soon as the fuel covers the instances of the
rule; it leaves exactly one instance of the rule and every other rule as it was. -/
theorem deleteWhileExists_kernel (rule : iptablesRule) :
    ∀ (fuel : Nat) (k : List iptablesRule) (tr : List Event),
      k.count rule ≤ fuel → 0 < fuel →
      (deleteWhileExists kernelHost rule fuel ⟨k, tr⟩).2 = true ∧
      (deleteWhileExists kernelHost rule fuel ⟨k, tr⟩).1.host.count rule = 1 ∧
      (∀ r, r ≠ rule →
        (deleteWhileExists kernelHost rule fuel ⟨k, tr⟩).1.host.count r = k.count r) ∧
      (deleteWhileExists kernelHost rule fuel ⟨k, tr⟩).1.host.length + k.count rule =
        k.length + 1 := by
  intro fuel
  induction fuel with
  | zero => intro k tr _ h; exact absurd h (Nat.lt_irrefl 0)
  | succ fuel ih =>
    intro k tr hc _
    rw [deleteWhileExists_kernel_succ]
    by_cases h : rule ∈ k.erase rule
    · rw [if_pos h]
      have hk : rule ∈ k := List.mem_of_mem_erase h
      have hcnt : (k.erase rule).count rule = k.count rule - 1 := List.count_erase_self rule k
      have hpos : 0 < (k.erase rule).count rule := List.count_pos_iff.mpr h
      have hlen : (k.erase rule).length = k.length - 1 := List.length_erase_of_mem hk
      have hlk : 0 < k.length := List.length_pos_of_mem hk
      obtain ⟨h1, h2, h3, h4⟩ := ih (k.erase rule)
        (tr ++ [Event.DeleteRule rule.table rule.chain rule.args] ++ [ensureCall rule])
        (by omega) (by omega)
      refine ⟨h1, h2, ?_, by omega⟩
      intro r hr
      rw [h3 r hr, List.count_erase_of_ne hr]
    · rw [if_neg h]
      have h0 : (k.erase rule).count rule = 0 := List.count_eq_zero.mpr h
      have hcnt : (k.erase rule).count rule = k.count rule - 1 := List.count_erase_self rule k
      refine ⟨rfl, ?_, ?_, ?_⟩
      · simp [h0]
      · intro r hr
        simp only
        rw [List.count_cons_of_ne hr, List.count_erase_of_ne hr]
      · simp only [List.length_cons]
        by_cases hk : rule ∈ k
        · have hlen : (k.erase rule).length = k.length - 1 := List.length_erase_of_mem hk
          have hlk : 0 < k.length := List.length_pos_of_mem hk
          have : 0 < k.count rule := List.count_pos_iff.mpr hk
          omega
        · rw [List.erase_of_not_mem hk]
          have : k.count rule = 0 := List.count_eq_zero.mpr hk
          omega

/-- The rule loop of the teardown on the kernel: with more fuel than the kernel holds rules,
the loop is left, no instance of a rule of the list remains, and the other rules are as they
were. -/
theorem teardownRules_kernel (fuel : Nat) (rules : List iptablesRule) :
    ∀ (k : List iptablesRule) (tr : List Event), k.length < fuel →
      (teardownRules kernelHost fuel rules ⟨k, tr⟩).2 = true ∧
      (∀ r ∈ rules, (teardownRules kernelHost fuel rules ⟨k, tr⟩).1.host.count r = 0) ∧
      (∀ r, r ∉ rules →
        (teardownRules kernelHost fuel rules ⟨k, tr⟩).1.host.count r = k.count r) := by
  induction rules with
  | nil =>
    intro k tr _
    simp [teardownRules]
  | cons rule rest ih =>
    intro k tr hf
    have hcl : k.count rule ≤ k.length := List.count_le_length rule k
    obtain ⟨h1, h2, h3, h4⟩ := deleteWhileExists_kernel rule fuel k tr (by omega) (by omega)
    rcases hx : deleteWhileExists kernelHost rule fuel ⟨k, tr⟩ with ⟨⟨k1, tr1⟩, b⟩
    rw [hx] at h1 h2 h3 h4
    simp only at h1 h2 h3 h4
    subst h1
    have hmem : rule ∈ k1 := List.count_pos_iff.mp (by omega)
    have hlen : (k1.erase rule).length = k1.length - 1 := List.length_erase_of_mem hmem
    have hstep : teardownRules kernelHost fuel (rule :: rest) ⟨k, tr⟩ =
        teardownRules kernelHost fuel rest
          ⟨k1.erase rule, tr1 ++ [Event.DeleteRule rule.table rule.chain rule.args]⟩ := by
      simp [teardownRules, hx, DeleteRule_kernel]
    rw [hstep]
    obtain ⟨g1, g2, g3⟩ := ih (k1.erase rule)
      (tr1 ++ [Event.DeleteRule rule.table rule.chain rule.args]) (by omega)
    refine ⟨g1, ?_, ?_⟩
    · intro r hr
      by_cases hin : r ∈ rest
      · exact g2 r hin
      · rw [g3 r hin]
        rcases List.mem_cons.mp hr with hr | hr
        · subst hr
          rw [List.count_erase_self]
          omega
        · exact absurd hr hin
    · intro r hr
      have hne : r ≠ rule := fun e => hr (e ▸ List.mem_cons_self _ _)
      have hin : r ∉ rest := fun e => hr (List.mem_cons_of_mem _ e)
      rw [g3 r hin, List.count_erase_of_ne hne, h3 r hne]

/-- C3: on the kernel model, for any rule table `k` (any multiplicity of each rule),
`TeardownNetworking` with `SetupIptables` set returns as soon as the fuel of its delete loops
exceeds the number of rules in the table, it returns a nil error, and afterwards every rule
of the configured list has multiplicity 0 while every other rule has the multiplicity it
had. -/
theorem TeardownNetworking_removes_every_rule (c : SidecarApp) (k : List iptablesRule)
    (tr : List Event) (fuel : Nat) (hs : c.params.SetupIptables = true)
    (hf : k.length < fuel) :
    (TeardownNetworking kernelHost c fuel ⟨k, tr⟩).2 = some none ∧
    (∀ r ∈ c.iptablesRules,
      (TeardownNetworking kernelHost c fuel ⟨k, tr⟩).1.host.count r = 0) ∧
    (∀ r, r ∉ c.iptablesRules →
      (TeardownNetworking kernelHost c fuel ⟨k, tr⟩).1.host.count r = k.count r) := by
  have hR : RemoveIPAddress kernelHost (klog Severity.Info "Cleaning up" ⟨k, tr⟩) =
      (none, ⟨k, tr ++ [Event.Log Severity.Info "Cleaning up"] ++ [Event.RemoveIPAddress]⟩) :=
    rfl
  obtain ⟨g1, g2, g3⟩ := teardownRules_kernel fuel c.iptablesRules k
    (tr ++ [Event.Log Severity.Info "Cleaning up"] ++ [Event.RemoveIPAddress]) hf
  simp only [TeardownNetworking, hs, hR, if_true, g1]
  exact ⟨trivial, g2, g3⟩

/-- C3, at the literal scenario: the kernel holds every rule of the battery twice, and the
teardown, which needs two rounds of each delete loop, leaves none of them. -/
theorem TeardownNetworking_removes_every_rule_witness :
    (TeardownNetworking kernelHost app443 11
        ⟨app443.iptablesRules ++ app443.iptablesRules, []⟩).2 = some none ∧
    (∀ r ∈ app443.iptablesRules,
      (TeardownNetworking kernelHost app443 11
        ⟨app443.iptablesRules ++ app443.iptablesRules, []⟩).1.host.count r = 0) :=
  ⟨(TeardownNetworking_removes_every_rule app443
      (app443.iptablesRules ++ app443.iptablesRules) [] 11 rfl (by decide)).1,
    (TeardownNetworking_removes_every_rule app443
      (app443.iptablesRules ++ app443.iptablesRules) [] 11 rfl (by decide)).2.1⟩

/-! ### The teardown with arbitrary collaborators -/

/-- The delete loop makes rule calls only, whatever the collaborators return and however
long it runs. -/
theorem calls_deleteWhileExists {σ : Type} (H : Host σ) (rule : iptablesRule) :
    ∀ (fuel : Nat) (w : World σ), ∃ evs,
      calls (deleteWhileExists H rule fuel w).1.trace = calls w.trace ++ evs ∧
      (∀ e ∈ evs, e.isRuleCall = true) ∧
      (0 < fuel → ∃ evs2, evs = Event.DeleteRule rule.table rule.chain rule.args :: evs2) := by
  intro fuel
  induction fuel with
  | zero =>
    intro w
    exact ⟨[], by simp [deleteWhileExists], by simp, fun h => absurd h (Nat.lt_irrefl 0)⟩
  | succ fuel ih =>
    intro w
    have hw1 : ∀ w1 : World σ,
        calls w1.trace = calls (DeleteRule H rule w).2.trace →
        ∃ evs, calls (if (EnsureRule H RulePosition.Prepend rule w1).1.1 = true then
              deleteWhileExists H rule fuel (EnsureRule H RulePosition.Prepend rule w1).2
            else ((EnsureRule H RulePosition.Prepend rule w1).2, true)).1.trace =
            calls w.trace ++ evs ∧
          (∀ e ∈ evs, e.isRuleCall = true) ∧
          (0 < fuel + 1 →
            ∃ evs2, evs = Event.DeleteRule rule.table rule.chain rule.args :: evs2) := by
      intro w1 h1
      split
      · obtain ⟨evs, a, b, -⟩ := ih (EnsureRule H RulePosition.Prepend rule w1).2
        refine ⟨Event.DeleteRule rule.table rule.chain rule.args ::
          Event.EnsureRule RulePosition.Prepend rule.table rule.chain rule.args :: evs,
          ?_, ?_, fun _ => ⟨_, rfl⟩⟩
        · rw [a, calls_EnsureRule, h1, calls_DeleteRule]
          simp
        · intro e he
          rcases List.mem_cons.mp he with he | he
          · subst he; rfl
          · rcases List.mem_cons.mp he with he | he
            · subst he; rfl
            · exact b e he
      · refine ⟨[Event.DeleteRule rule.table rule.chain rule.args,
          Event.EnsureRule RulePosition.Prepend rule.table rule.chain rule.args],
          ?_, ?_, fun _ => ⟨_, rfl⟩⟩
        · simp only
          rw [calls_EnsureRule, h1, calls_DeleteRule]
          simp
        · intro e he
          rcases List.mem_cons.mp he with he | he
          · subst he; rfl
          · rcases List.mem_cons.mp he with he | he
            · subst he; rfl
            · cases he
    rw [deleteWhileExists]
    apply hw1
    split
    · exact calls_klog _ _ _
    · rfl

/-- The rule loop of the teardown makes rule calls only, and when it does anything it starts
with the `DeleteRule` of the first rule. -/
theorem calls_teardownRules {σ : Type} (H : Host σ) (fuel : Nat) (rules : List iptablesRule) :
    ∀ w : World σ, ∃ evs,
      calls (teardownRules H fuel rules w).1.trace = calls w.trace ++ evs ∧
      (∀ e ∈ evs, e.isRuleCall = true) ∧
      (∀ rule rest, rules = rule :: rest → 0 < fuel →
        ∃ evs2, evs = Event.DeleteRule rule.table rule.chain rule.args :: evs2) := by
  induction rules with
  | nil =>
    intro w
    refine ⟨[], by simp [teardownRules], by simp, ?_⟩
    intro rule rest h
    cases h
  | cons rule rest ih =>
    intro w
    obtain ⟨evs, a, b, c⟩ := calls_deleteWhileExists H rule fuel w
    rw [teardownRules]
    simp only
    split
    · have hw1 : ∀ w1 : World σ,
          calls w1.trace = calls (DeleteRule H rule (deleteWhileExists H rule fuel w).1).2.trace →
          ∃ evs, calls (teardownRules H fuel rest w1).1.trace = calls w.trace ++ evs ∧
            (∀ e ∈ evs, e.isRuleCall = true) ∧
            (∀ r2 rest2, rule :: rest = r2 :: rest2 → 0 < fuel →
              ∃ evs2, evs = Event.DeleteRule r2.table r2.chain r2.args :: evs2) := by
        intro w1 h1
        obtain ⟨evs3, a3, b3, -⟩ := ih w1
        refine ⟨evs ++ Event.DeleteRule rule.table rule.chain rule.args :: evs3, ?_, ?_, ?_⟩
        · rw [a3, h1, calls_DeleteRule, a]
          simp
        · intro e he
          rcases List.mem_append.mp he with he | he
          · exact b e he
          · rcases List.mem_cons.mp he with he | he
            · subst he; rfl
            · exact b3 e he
        · intro r2 rest2 h hf
          cases h
          obtain ⟨evs2, h2⟩ := c hf
          exact ⟨evs2 ++ Event.DeleteRule rule.table rule.chain rule.args :: evs3, by simp [h2]⟩
      apply hw1
      split
      · exact calls_klog _ _ _
      · rfl
    · refine ⟨evs, a, b, ?_⟩
      intro r2 rest2 h hf
      cases h
      exact c hf

/-- The calls of `TeardownNetworking`: first the one `RemoveIPAddress`, then rule calls only
(none when `SetupIptables` is not set; starting with the `DeleteRule` of the first rule when
it is set and there is a rule). -/
theorem calls_TeardownNetworking {σ : Type} (H : Host σ) (c : SidecarApp) (fuel : Nat)
    (w : World σ) :
    ∃ tl, calls (TeardownNetworking H c fuel w).1.trace =
        calls w.trace ++ Event.RemoveIPAddress :: tl ∧
      (∀ e ∈ tl, e.isRuleCall = true) ∧
      (c.params.SetupIptables = false → tl = []) ∧
      (∀ rule rest, c.params.SetupIptables = true → c.iptablesRules = rule :: rest →
        0 < fuel → ∃ tl2, tl = Event.DeleteRule rule.table rule.chain rule.args :: tl2) := by
  unfold TeardownNetworking
  simp only
  split
  · rename_i hs
    obtain ⟨evs, a, b, c3⟩ := calls_teardownRules H fuel c.iptablesRules
      (RemoveIPAddress H (klog Severity.Info "Cleaning up" w)).2
    refine ⟨evs, ?_, b, ?_, ?_⟩
    · have : calls (teardownRules H fuel c.iptablesRules
          (RemoveIPAddress H (klog Severity.Info "Cleaning up" w)).2).1.trace =
          calls w.trace ++ Event.RemoveIPAddress :: evs := by
        rw [a, calls_RemoveIPAddress, calls_klog]
        simp
      split <;> exact this
    · intro h
      rw [h] at hs
      cases hs
    · intro rule rest _ hr hf
      exact c3 rule rest hr hf
  · rename_i hs
    refine ⟨[], ?_, by simp, fun _ => rfl, ?_⟩
    · simp only
      rw [calls_RemoveIPAddress, calls_klog]
    · intro rule rest h
      exact absurd h hs

/-- What `TeardownNetworking` returns, when it returns, is what `RemoveIPAddress` returned. -/
theorem TeardownNetworking_result {σ : Type} (H : Host σ) (c : SidecarApp) (fuel : Nat)
    (w : World σ) :
    (TeardownNetworking H c fuel w).2 = none ∨
      (TeardownNetworking H c fuel w).2 = some (H.RemoveIPAddress w.host).1 := by
  unfold TeardownNetworking
  simp only
  split
  · split
    · exact Or.inr rfl
    · exact Or.inl rfl
  · exact Or.inr rfl

/-- A delete loop that was left with some fuel runs the same with more fuel. -/
theorem deleteWhileExists_mono {σ : Type} (H : Host σ) (rule : iptablesRule) :
    ∀ (fuel : Nat) (w : World σ), (deleteWhileExists H rule fuel w).2 = true →
      ∀ fuel2, fuel ≤ fuel2 →
        deleteWhileExists H rule fuel2 w = deleteWhileExists H rule fuel w := by
  intro fuel
  induction fuel with
  | zero =>
    intro w h
    simp [deleteWhileExists] at h
  | succ fuel ih =>
    intro w h fuel2 hle
    obtain ⟨m, rfl⟩ : ∃ m, fuel2 = m + 1 := ⟨fuel2 - 1, by omega⟩
    rw [deleteWhileExists] at h ⊢
    rw [deleteWhileExists]
    generalize (if (DeleteRule H rule w).1.isSome = true then
      klog Severity.Error "Error deleting iptables rule %v - %s" (DeleteRule H rule w).2
      else (DeleteRule H rule w).2) = w1 at h ⊢
    by_cases he : (EnsureRule H RulePosition.Prepend rule w1).1.1 = true
    · rw [if_pos he] at h ⊢
      rw [if_pos he]
      exact ih _ h m (by omega)
    · rw [if_neg he, if_neg he]

/-- Under a decreasing measure the delete loop is left once the fuel exceeds the measure. -/
theorem deleteWhileExists_returns {σ : Type} (H : Host σ) (μ : σ → Nat)
    (hμ : Decreasing H μ) (rule : iptablesRule) :
    ∀ (fuel : Nat) (w : World σ), μ w.host < fuel →
      (deleteWhileExists H rule fuel w).2 = true := by
  intro fuel
  induction fuel with
  | zero => intro w h; exact absurd h (Nat.not_lt_zero _)
  | succ fuel ih =>
    intro w h
    rw [deleteWhileExists]
    have hhost : ∀ w1 : World σ, w1.host = (DeleteRule H rule w).2.host →
        (if (EnsureRule H RulePosition.Prepend rule w1).1.1 = true then
            deleteWhileExists H rule fuel (EnsureRule H RulePosition.Prepend rule w1).2
          else ((EnsureRule H RulePosition.Prepend rule w1).2, true)).2 = true := by
      intro w1 h1
      split
      · rename_i he
        apply ih
        have hd := hμ rule w.host
        simp only [EnsureRule, DeleteRule] at he h1 ⊢
        rw [h1] at he ⊢
        have := hd he
        omega
      · rfl
    apply hhost
    split
    · rfl
    · rfl

/-- Under a decreasing measure the rule loop of the teardown is left for every fuel from
some bound on. -/
theorem teardownRules_returns {σ : Type} (H : Host σ) (μ : σ → Nat) (hμ : Decreasing H μ)
    (rules : List iptablesRule) :
    ∀ w : World σ, ∃ fuel0, ∀ fuel, fuel0 ≤ fuel →
      (teardownRules H fuel rules w).2 = true := by
  induction rules with
  | nil =>
    intro w
    exact ⟨0, fun fuel _ => rfl⟩
  | cons rule rest ih =>
    intro w
    have h0 := deleteWhileExists_returns H μ hμ rule (μ w.host + 1) w (Nat.lt_succ_self _)
    obtain ⟨f2, hf2⟩ := ih
      (if (DeleteRule H rule (deleteWhileExists H rule (μ w.host + 1) w).1).1.isSome = true then
        klog Severity.Error "Error deleting iptables rule %v - %s"
          (DeleteRule H rule (deleteWhileExists H rule (μ w.host + 1) w).1).2
      else (DeleteRule H rule (deleteWhileExists H rule (μ w.host + 1) w).1).2)
    refine ⟨max (μ w.host + 1) f2, ?_⟩
    intro fuel hfuel
    have hm := deleteWhileExists_mono H rule (μ w.host + 1) w h0 fuel (by omega)
    rw [teardownRules]
    simp only
    rw [hm, if_pos h0]
    exact hf2 fuel (by omega)

/-! ### The shape of a teardown that returns -/

/-- A delete loop that is left has run `k` rounds, `1 ≤ k ≤ fuel`: its calls are `k` times
`DeleteRule` then `EnsureRule(Prepend)`. -/
theorem calls_deleteWhileExists_left {σ : Type} (H : Host σ) (rule : iptablesRule) :
    ∀ (fuel : Nat) (w : World σ), (deleteWhileExists H rule fuel w).2 = true →
      ∃ k, 1 ≤ k ∧ k ≤ fuel ∧
        calls (deleteWhileExists H rule fuel w).1.trace =
          calls w.trace ++ (List.replicate k
            [Event.DeleteRule rule.table rule.chain rule.args, ensureCall rule]).flatten := by
  intro fuel
  induction fuel with
  | zero =>
    intro w h
    simp [deleteWhileExists] at h
  | succ fuel ih =>
    intro w h
    rw [deleteWhileExists] at h ⊢
    have hw1 : calls (if (DeleteRule H rule w).1.isSome = true then
        klog Severity.Error "Error deleting iptables rule %v - %s" (DeleteRule H rule w).2
        else (DeleteRule H rule w).2).trace =
        calls w.trace ++ [Event.DeleteRule rule.table rule.chain rule.args] := by
      split
      · rw [calls_klog, calls_DeleteRule]
      · rw [calls_DeleteRule]
    generalize (if (DeleteRule H rule w).1.isSome = true then
      klog Severity.Error "Error deleting iptables rule %v - %s" (DeleteRule H rule w).2
      else (DeleteRule H rule w).2) = w1 at h hw1 ⊢
    by_cases he : (EnsureRule H RulePosition.Prepend rule w1).1.1 = true
    · rw [if_pos he] at h ⊢
      obtain ⟨k, k1, k2, k3⟩ := ih _ h
      refine ⟨k + 1, by omega, by omega, ?_⟩
      rw [k3, calls_EnsureRule, hw1, List.replicate_succ, List.flatten_cons]
      simp [ensureCall]
    · rw [if_neg he]
      refine ⟨1, by omega, by omega, ?_⟩
      simp only
      rw [calls_EnsureRule, hw1]
      simp [ensureCall]

/-- A rule loop of the teardown that is left has made, for each rule in list order, the
calls of its delete loop and then its final `DeleteRule`, and nothing else. -/
theorem calls_teardownRules_left {σ : Type} (H : Host σ) (fuel : Nat)
    (rules : List iptablesRule) :
    ∀ w : World σ, (teardownRules H fuel rules w).2 = true →
      ∃ ks : List Nat, ks.length = rules.length ∧ (∀ k ∈ ks, 1 ≤ k ∧ k ≤ fuel) ∧
        calls (teardownRules H fuel rules w).1.trace =
          calls w.trace ++
            ((rules.zip ks).map (fun p => ruleTeardownCalls p.1 p.2)).flatten := by
  induction rules with
  | nil =>
    intro w _
    exact ⟨[], rfl, by simp, by simp [teardownRules]⟩
  | cons rule rest ih =>
    intro w h
    rw [teardownRules] at h ⊢
    by_cases hx : (deleteWhileExists H rule fuel w).2 = true
    · rw [if_pos hx] at h ⊢
      simp only at h ⊢
      obtain ⟨k, k1, k2, k3⟩ := calls_deleteWhileExists_left H rule fuel w hx
      have hw1 : calls (if (DeleteRule H rule (deleteWhileExists H rule fuel w).1).1.isSome =
            true then
          klog Severity.Error "Error deleting iptables rule %v - %s"
            (DeleteRule H rule (deleteWhileExists H rule fuel w).1).2
          else (DeleteRule H rule (deleteWhileExists H rule fuel w).1).2).trace =
          calls w.trace ++ ruleTeardownCalls rule k := by
        have hd : calls (DeleteRule H rule (deleteWhileExists H rule fuel w).1).2.trace =
            calls w.trace ++ ruleTeardownCalls rule k := by
          rw [calls_DeleteRule, k3]
          simp [ruleTeardownCalls]
        split
        · rw [calls_klog, hd]
        · exact hd
      generalize (if (DeleteRule H rule (deleteWhileExists H rule fuel w).1).1.isSome = true then
        klog Severity.Error "Error deleting iptables rule %v - %s"
          (DeleteRule H rule (deleteWhileExists H rule fuel w).1).2
        else (DeleteRule H rule (deleteWhileExists H rule fuel w).1).2) = w1 at h hw1 ⊢
      obtain ⟨ks, l1, l2, l3⟩ := ih w1 h
      refine ⟨k :: ks, by simp [l1], ?_, ?_⟩
      · intro x hx2
        rcases List.mem_cons.mp hx2 with hx2 | hx2
        · subst hx2
          exact ⟨k1, k2⟩
        · exact l2 x hx2
      · rw [l3, hw1]
        simp
    · rw [if_neg hx] at h
      simp at h

/-! ### When the delete loop is left -/

/-- The delete loop of a rule is left within `fuel` rounds exactly when one of its first
`fuel` rounds reports the rule as not present. -/
theorem deleteWhileExists_left_iff {σ : Type} (H : Host σ) (rule : iptablesRule) :
    ∀ (fuel : Nat) (w : World σ),
      (deleteWhileExists H rule fuel w).2 = true ↔
        ∃ k, k < fuel ∧
          reportsPresent H rule (Nat.iterate (deleteRound H rule) k w.host) = false := by
  intro fuel
  induction fuel with
  | zero =>
    intro w
    simp [deleteWhileExists]
  | succ fuel ih =>
    intro w
    rw [deleteWhileExists]
    have hw1 : (if (DeleteRule H rule w).1.isSome = true then
        klog Severity.Error "Error deleting iptables rule %v - %s" (DeleteRule H rule w).2
        else (DeleteRule H rule w).2).host =
        (H.DeleteRule rule.table rule.chain rule.args w.host).2 := by
      split <;> rfl
    generalize (if (DeleteRule H rule w).1.isSome = true then
      klog Severity.Error "Error deleting iptables rule %v - %s" (DeleteRule H rule w).2
      else (DeleteRule H rule w).2) = w1 at hw1 ⊢
    have hflag : (EnsureRule H RulePosition.Prepend rule w1).1.1 =
        reportsPresent H rule w.host := by
      simp only [EnsureRule, reportsPresent, hw1]
    have hhost : (EnsureRule H RulePosition.Prepend rule w1).2.host =
        deleteRound H rule w.host := by
      simp only [EnsureRule, deleteRound, hw1]
    by_cases he : (EnsureRule H RulePosition.Prepend rule w1).1.1 = true
    · rw [if_pos he, ih, hhost]
      constructor
      · rintro ⟨k, hk, hf⟩
        exact ⟨k + 1, by omega, by rw [Function.iterate_succ_apply]; exact hf⟩
      · rintro ⟨k, hk, hf⟩
        cases k with
        | zero =>
          rw [Function.iterate_zero, id_eq, ← hflag, he] at hf
          cases hf
        | succ m =>
          rw [Function.iterate_succ_apply] at hf
          exact ⟨m, by omega, hf⟩
    · rw [if_neg he]
      simp only [true_iff]
      refine ⟨0, by omega, ?_⟩
      rw [Function.iterate_zero, id_eq, ← hflag]
      simpa using he

/-- While every round reports the first rule as present, `TeardownNetworking` with
`SetupIptables` set does not return. -/
theorem TeardownNetworking_stuck {σ : Type} (H : Host σ) (c : SidecarApp) (w : World σ)
    (rule : iptablesRule) (rest : List iptablesRule) (hs : c.params.SetupIptables = true)
    (hr : c.iptablesRules = rule :: rest) (hp : ∀ s, reportsPresent H rule s = true)
    (fuel : Nat) : (TeardownNetworking H c fuel w).2 = none := by
  have hx : ∀ w1 : World σ, ¬ (deleteWhileExists H rule fuel w1).2 = true := by
    intro w1 h
    obtain ⟨k, -, hf⟩ := (deleteWhileExists_left_iff H rule fuel w1).mp h
    rw [hp] at hf
    cases hf
  simp only [TeardownNetworking, hs, hr, if_true]
  rw [teardownRules, if_neg (hx _)]
  simp

/-- Under a decreasing measure `TeardownNetworking` returns, for every fuel from some bound
on, what `RemoveIPAddress` returned. -/
theorem TeardownNetworking_returns {σ : Type} (H : Host σ) (c : SidecarApp) (w : World σ)
    (μ : σ → Nat) (hμ : Decreasing H μ) :
    ∃ fuel0, ∀ fuel, fuel0 ≤ fuel →
      (TeardownNetworking H c fuel w).2 = some (H.RemoveIPAddress w.host).1 := by
  obtain ⟨fuel0, h0⟩ := teardownRules_returns H μ hμ c.iptablesRules
    (RemoveIPAddress H (klog Severity.Info "Cleaning up" w)).2
  refine ⟨fuel0, ?_⟩
  intro fuel hf
  have := h0 fuel hf
  by_cases hs : c.params.SetupIptables = true
  · simp only [TeardownNetworking, hs, this, if_true]
    rfl
  · simp [TeardownNetworking, hs, RemoveIPAddress, klog]

/-- With `SetupIptables` not set `TeardownNetworking` returns at once what `RemoveIPAddress`
returned, and that call is its only call. -/
theorem TeardownNetworking_without_rules {σ : Type} (H : Host σ) (c : SidecarApp)
    (w : World σ) (hs : c.params.SetupIptables = false) (fuel : Nat) :
    (TeardownNetworking H c fuel w).2 = some (H.RemoveIPAddress w.host).1 ∧
    calls (TeardownNetworking H c fuel w).1.trace =
      calls w.trace ++ [Event.RemoveIPAddress] := by
  obtain ⟨tl, a, -, b, -⟩ := calls_TeardownNetworking H c fuel w
  refine ⟨?_, ?_⟩
  · unfold TeardownNetworking
    simp only [hs]
    rfl
  · rw [a, b hs]

theorem kernelHost_decreasing : Decreasing kernelHost List.length := by
  intro rule s
  rcases rule with ⟨t, c, a⟩
  by_cases h : (⟨t, c, a⟩ : iptablesRule) ∈ s.erase ⟨t, c, a⟩
  · intro _
    have hk : (⟨t, c, a⟩ : iptablesRule) ∈ s := List.mem_of_mem_erase h
    have hlen := List.length_erase_of_mem hk
    have hpos := List.length_pos_of_mem hk
    simp only [kernelHost, h, if_true]
    omega
  · intro he
    simp [kernelHost, h] at he

theorem flakyHost_decreasing : Decreasing flakyHost id := by
  intro rule s
  by_cases h : 0 < s
  · intro _
    simp only [flakyHost, h, if_true, id_eq]
    omega
  · intro he
    simp [flakyHost, h] at he

/-! ### The claims on the teardown -/

/-- C4, as stated, fails: in the literal scenario, on a kernel that holds the five rules, the
`RemoveIPAddress` call of the teardown is followed by `DeleteRule` calls. -/
theorem TeardownNetworking_removes_address_first_example :
    ¬ RemoveAfterDeletes
      (calls (TeardownNetworking kernelHost app443 6 ⟨app443.iptablesRules, []⟩).1.trace) := by
  intro h
  have h1 := h [] (calls (TeardownNetworking kernelHost app443 6
    ⟨app443.iptablesRules, []⟩).1.trace).tail (by decide)
    (Event.DeleteRule "raw" "PREROUTING"
      ["-p", "tcp", "-d", "100.64.0.1", "--dport", "443", "-j", "NOTRACK"]) (by decide)
  exact absurd h1 (by decide)

/-- C4, amended: in the calls of `TeardownNetworking` the one `RemoveIPAddress` call is the
first call; all calls after it are `DeleteRule` and `EnsureRule` calls (so it comes before
every rule deletion, and there is no second address call); with `SetupIptables` set and a
rule in the list, the call right after it is the `DeleteRule` of the first rule.  What the
teardown returns, when it returns, is what `RemoveIPAddress` returned.  When it returns with
`SetupIptables` set, the calls after `RemoveIPAddress` are exactly, for each configured rule
in list order, the rounds of its delete loop (at least one round, each round `DeleteRule`
then `EnsureRule(Prepend)`) and then its final `DeleteRule`; with `SetupIptables` not set it
returns at once and `RemoveIPAddress` is its only call.  It returns, for every fuel from some
bound on, whenever the rounds that report the rule as present decrease a measure of the host
state. -/
theorem TeardownNetworking_removes_address_first {σ : Type} (H : Host σ) (c : SidecarApp)
    (fuel : Nat) (w : World σ) :
    (∃ tl, calls (TeardownNetworking H c fuel w).1.trace =
        calls w.trace ++ Event.RemoveIPAddress :: tl ∧
      (∀ e ∈ tl, e.isRuleCall = true) ∧
      Event.RemoveIPAddress ∉ tl ∧
      (∀ rule rest, c.params.SetupIptables = true → c.iptablesRules = rule :: rest →
        0 < fuel → ∃ tl2, tl = Event.DeleteRule rule.table rule.chain rule.args :: tl2)) ∧
    ((TeardownNetworking H c fuel w).2 = none ∨
      (TeardownNetworking H c fuel w).2 = some (H.RemoveIPAddress w.host).1) ∧
    (c.params.SetupIptables = true → (TeardownNetworking H c fuel w).2 ≠ none →
      ∃ ks : List Nat, ks.length = c.iptablesRules.length ∧
        (∀ k ∈ ks, 1 ≤ k ∧ k ≤ fuel) ∧
        calls (TeardownNetworking H c fuel w).1.trace =
          calls w.trace ++ Event.RemoveIPAddress ::
            ((c.iptablesRules.zip ks).map (fun p => ruleTeardownCalls p.1 p.2)).flatten) ∧
    (c.params.SetupIptables = false →
      (TeardownNetworking H c fuel w).2 = some (H.RemoveIPAddress w.host).1 ∧
      calls (TeardownNetworking H c fuel w).1.trace =
        calls w.trace ++ [Event.RemoveIPAddress]) ∧
    (∀ μ : σ → Nat, Decreasing H μ → ∃ fuel0, ∀ fuel2, fuel0 ≤ fuel2 →
      (TeardownNetworking H c fuel2 w).2 = some (H.RemoveIPAddress w.host).1) := by
  refine ⟨?_, TeardownNetworking_result H c fuel w, ?_,
    fun hs => TeardownNetworking_without_rules H c w hs fuel,
    fun μ hμ => TeardownNetworking_returns H c w μ hμ⟩
  · obtain ⟨tl, a, b, -, d⟩ := calls_TeardownNetworking H c fuel w
    refine ⟨tl, a, b, ?_, d⟩
    intro hmem
    have := b _ hmem
    simp [Event.isRuleCall] at this
  · intro hs hret
    by_cases hx : (teardownRules H fuel c.iptablesRules
        (RemoveIPAddress H (klog Severity.Info "Cleaning up" w)).2).2 = true
    · obtain ⟨ks, l1, l2, l3⟩ := calls_teardownRules_left H fuel c.iptablesRules _ hx
      refine ⟨ks, l1, l2, ?_⟩
      simp only [TeardownNetworking, hs, hx, if_true]
      rw [l3, calls_RemoveIPAddress, calls_klog]
      simp
    · exfalso
      apply hret
      simp only [TeardownNetworking, hs, if_true, if_neg hx]

/-- C4 amended, at the literal scenario: on a kernel that holds the five rules the teardown
returns, and its calls are `RemoveIPAddress` and then the rounds and the final `DeleteRule`
of each of the five rules. -/
theorem TeardownNetworking_removes_address_first_witness :
    ∃ ks : List Nat, ks.length = app443.iptablesRules.length ∧
      (∀ k ∈ ks, 1 ≤ k ∧ k ≤ 6) ∧
      calls (TeardownNetworking kernelHost app443 6 ⟨app443.iptablesRules, []⟩).1.trace =
        calls ([] : List Event) ++ Event.RemoveIPAddress ::
          ((app443.iptablesRules.zip ks).map (fun p => ruleTeardownCalls p.1 p.2)).flatten :=
  (TeardownNetworking_removes_address_first kernelHost app443 6
    ⟨app443.iptablesRules, []⟩).2.2.1 rfl (by decide)

/-- C10, as stated, fails: when every `DeleteRule` fails and every `EnsureRule` reports the
rule as present, the teardown of the literal scenario never returns: there is no returned
error to equal the result of `RemoveIPAddress`. -/
theorem TeardownNetworking_stuck_never_returns :
    ¬ ReturnsAddressError stuckHost app443 ⟨(), []⟩ := by
  rintro ⟨fuel, h⟩
  have hn := TeardownNetworking_stuck stuckHost app443 ⟨(), []⟩ _ _ rfl rfl (fun _ => rfl) fuel
  rw [hn] at h
  cases h

/-- C10, amended: `TeardownNetworking` does not fail on a per-rule basis.  Whatever the
`DeleteRule` and `EnsureRule` calls return, what it returns, when it returns, is exactly what
the `RemoveIPAddress` call returned (nil if and only if that call succeeded).  The delete
loop of a rule is left within `fuel` rounds exactly when one of its first `fuel` rounds
(`DeleteRule`, then `EnsureRule(Prepend)`) reports the rule as not present, whatever errors
the calls return.  So the teardown returns, for every fuel from some bound on, whenever the
rounds that report the rule as present decrease a measure of the host state; and with
`SetupIptables` set it never returns when every round reports the first rule as present.
With `SetupIptables` not set it returns at once and its only call is `RemoveIPAddress`: no
`DeleteRule` and no `EnsureRule` call. -/
theorem TeardownNetworking_returns_address_error {σ : Type} (H : Host σ) (c : SidecarApp)
    (w : World σ) :
    (∀ fuel, (TeardownNetworking H c fuel w).2 = none ∨
      (TeardownNetworking H c fuel w).2 = some (H.RemoveIPAddress w.host).1) ∧
    (∀ (rule : iptablesRule) (fuel : Nat) (w1 : World σ),
      (deleteWhileExists H rule fuel w1).2 = true ↔
        ∃ k, k < fuel ∧
          reportsPresent H rule (Nat.iterate (deleteRound H rule) k w1.host) = false) ∧
    (∀ μ : σ → Nat, Decreasing H μ → ∃ fuel0, ∀ fuel, fuel0 ≤ fuel →
      (TeardownNetworking H c fuel w).2 = some (H.RemoveIPAddress w.host).1) ∧
    (c.params.SetupIptables = true → ∀ rule rest, c.iptablesRules = rule :: rest →
      (∀ s, reportsPresent H rule s = true) →
      ∀ fuel, (TeardownNetworking H c fuel w).2 = none) ∧
    (c.params.SetupIptables = false → ∀ fuel,
      (TeardownNetworking H c fuel w).2 = some (H.RemoveIPAddress w.host).1 ∧
      calls (TeardownNetworking H c fuel w).1.trace =
        calls w.trace ++ [Event.RemoveIPAddress]) :=
  ⟨fun fuel => TeardownNetworking_result H c fuel w,
    fun rule fuel w1 => deleteWhileExists_left_iff H rule fuel w1,
    fun μ hμ => TeardownNetworking_returns H c w μ hμ,
    fun hs rule rest hr hp fuel => TeardownNetworking_stuck H c w rule rest hs hr hp fuel,
    fun hs fuel => TeardownNetworking_without_rules H c w hs fuel⟩

/-- C10 amended, at a concrete input: every `DeleteRule` fails, `EnsureRule` reports the rule
as present three times (with a lock error) before it reports it as absent, and
`RemoveIPAddress` fails with "no such device"; the teardown of the literal scenario returns
"no such device". -/
theorem TeardownNetworking_returns_address_error_witness :
    ∃ fuel0, ∀ fuel, fuel0 ≤ fuel →
      (TeardownNetworking flakyHost app443 fuel ⟨3, []⟩).2 = some (some "no such device") :=
  (TeardownNetworking_returns_address_error flakyHost app443 ⟨3, []⟩).2.2.1 id
    flakyHost_decreasing

/-! ### The claims on `RunApp` -/

/-- After `n` ticks and the cancellation, the loop of `runPeriodic` has returned and has run
`n` passes. -/
theorem selectLoop_ticks_done {σ : Type} (H : Host σ) (c : SidecarApp) (rest : List Signal) :
    ∀ (n : Nat) (w : World σ),
      (selectLoop H c (List.replicate n Signal.tick ++ Signal.done :: rest) w).2 = true ∧
      calls (selectLoop H c (List.replicate n Signal.tick ++ Signal.done :: rest) w).1.trace =
        calls w.trace ++ (List.replicate n (passCalls c)).flatten := by
  intro n
  induction n with
  | zero =>
    intro w
    simp [selectLoop, calls_klog]
  | succ n ih =>
    intro w
    obtain ⟨a, b⟩ := ih (runChecks H c w)
    have step : selectLoop H c (List.replicate (n + 1) Signal.tick ++ Signal.done :: rest) w =
        selectLoop H c (List.replicate n Signal.tick ++ Signal.done :: rest)
          (runChecks H c w) := rfl
    rw [step, List.replicate_succ, List.flatten_cons]
    refine ⟨a, ?_⟩
    rw [b, calls_runChecks, List.append_assoc]

/-- After `n` ticks and no cancellation, the loop of `runPeriodic` has not returned and has
run `n` passes. -/
theorem selectLoop_ticks {σ : Type} (H : Host σ) (c : SidecarApp) :
    ∀ (n : Nat) (w : World σ),
      (selectLoop H c (List.replicate n Signal.tick) w).2 = false ∧
      calls (selectLoop H c (List.replicate n Signal.tick) w).1.trace =
        calls w.trace ++ (List.replicate n (passCalls c)).flatten := by
  intro n
  induction n with
  | zero =>
    intro w
    simp [selectLoop]
  | succ n ih =>
    intro w
    obtain ⟨a, b⟩ := ih (runChecks H c w)
    have step : selectLoop H c (List.replicate (n + 1) Signal.tick) w =
        selectLoop H c (List.replicate n Signal.tick) (runChecks H c w) := rfl
    rw [step, List.replicate_succ, List.flatten_cons]
    refine ⟨a, ?_⟩
    rw [b, calls_runChecks, List.append_assoc]

theorem setupRules_params (c : SidecarApp) : (setupRules c).params = c.params := by
  unfold setupRules
  split <;> rfl

/-- With a positive interval, `n` ticks and the cancellation: `runPeriodic` returns after `n`
passes. -/
theorem runPeriodic_ticks_done {σ : Type} (H : Host σ) (c : SidecarApp) (rest : List Signal)
    (n : Nat) (w : World σ) (hi : 0 < c.params.Interval) :
    (runPeriodic H c (List.replicate n Signal.tick ++ Signal.done :: rest) w).2 =
      Periodic.returned ∧
    calls (runPeriodic H c (List.replicate n Signal.tick ++ Signal.done :: rest) w).1.trace =
      calls w.trace ++ (List.replicate n (passCalls c)).flatten := by
  obtain ⟨a, b⟩ := selectLoop_ticks_done H c rest n w
  have hn : ¬ c.params.Interval ≤ 0 := by omega
  simp only [runPeriodic, if_neg hn, a, if_true]
  exact ⟨trivial, b⟩

/-- With a positive interval, `n` ticks and no cancellation: `runPeriodic` is still waiting
after `n` passes. -/
theorem runPeriodic_ticks {σ : Type} (H : Host σ) (c : SidecarApp) (n : Nat) (w : World σ)
    (hi : 0 < c.params.Interval) :
    (runPeriodic H c (List.replicate n Signal.tick) w).2 = Periodic.waiting ∧
    calls (runPeriodic H c (List.replicate n Signal.tick) w).1.trace =
      calls w.trace ++ (List.replicate n (passCalls c)).flatten := by
  obtain ⟨a, b⟩ := selectLoop_ticks H c n w
  have hn : ¬ c.params.Interval ≤ 0 := by omega
  simp only [runPeriodic, if_neg hn, a]
  exact ⟨by simp, by simpa using b⟩

/-- With an interval that is not positive `runPeriodic` panics before anything else. -/
theorem runPeriodic_panics {σ : Type} (H : Host σ) (c : SidecarApp) (signals : List Signal)
    (w : World σ) (hi : c.params.Interval ≤ 0) :
    runPeriodic H c signals w = (w, Periodic.panicked) := by
  simp only [runPeriodic, if_pos hi]

/-- The deferred function makes the calls of one `TeardownNetworking`; how it ends follows
from what the teardown returns. -/
theorem deferredTeardown_spec {σ : Type} (H : Host σ) (c : SidecarApp) (fuel : Nat)
    (panicking : Bool) (w : World σ) :
    calls (deferredTeardown H c fuel panicking w).1.trace =
      calls (TeardownNetworking H c fuel w).1.trace ∧
    ((TeardownNetworking H c fuel w).2 = none →
      (deferredTeardown H c fuel panicking w).2 = Exit.deleting) ∧
    ((TeardownNetworking H c fuel w).2 = some none →
      (deferredTeardown H c fuel panicking w).2 =
        if panicking then Exit.panicked else Exit.returned) ∧
    (∀ err, (TeardownNetworking H c fuel w).2 = some (some err) →
      (deferredTeardown H c fuel panicking w).2 = Exit.fatal) := by
  unfold deferredTeardown
  rcases TeardownNetworking H c fuel w with ⟨w3, _ | _ | e⟩
  · simp
  · simp [calls_klog]
  · simp [calls_klog]

/-- How `RunApp` goes on from the end `x` of its body. -/
theorem RunApp_of_body {σ : Type} (H : Host σ) (c : SidecarApp) (signals : List Signal)
    (fuel : Nat) (w : World σ) (x : World σ × Periodic)
    (hx : (if c.params.Daemon = true then
        runPeriodic H (setupRules c) signals
          (klog Severity.Info "Running as a daemon" (runChecks H (setupRules c) w))
      else (runChecks H (setupRules c) w, Periodic.returned)) = x) :
    RunApp H c signals fuel w =
      match x.2 with
      | Periodic.waiting => (x.1, Exit.waiting)
      | Periodic.returned =>
        if c.params.Cleanup = true then
          deferredTeardown H (setupRules c) fuel false (klog Severity.Info "Exiting... Bye!" x.1)
        else (klog Severity.Info "Exiting... Bye!" x.1, Exit.returned)
      | Periodic.panicked =>
        if c.params.Cleanup = true then deferredTeardown H (setupRules c) fuel true x.1
        else (x.1, Exit.panicked) := by
  subst hx
  unfold RunApp
  simp only [setupRules_params]

/-- The end of `RunApp` when its body has returned in the world `w1`. -/
theorem RunApp_after_return {σ : Type} (H : Host σ) (c : SidecarApp) (fuel : Nat)
    (r : World σ × Exit) (w1 : World σ)
    (hr : r = if c.params.Cleanup = true then
        deferredTeardown H (setupRules c) fuel false (klog Severity.Info "Exiting... Bye!" w1)
      else (klog Severity.Info "Exiting... Bye!" w1, Exit.returned)) :
    (c.params.Cleanup = true →
      calls r.1.trace = calls (TeardownNetworking H (setupRules c) fuel
          (klog Severity.Info "Exiting... Bye!" w1)).1.trace ∧
      ((TeardownNetworking H (setupRules c) fuel
          (klog Severity.Info "Exiting... Bye!" w1)).2 = none → r.2 = Exit.deleting) ∧
      ((TeardownNetworking H (setupRules c) fuel
          (klog Severity.Info "Exiting... Bye!" w1)).2 = some none → r.2 = Exit.returned) ∧
      (∀ err, (TeardownNetworking H (setupRules c) fuel
          (klog Severity.Info "Exiting... Bye!" w1)).2 = some (some err) → r.2 = Exit.fatal)) ∧
    (c.params.Cleanup = false → calls r.1.trace = calls w1.trace ∧ r.2 = Exit.returned) := by
  subst hr
  constructor
  · intro hc
    rw [if_pos hc]
    obtain ⟨a, b, d, e⟩ := deferredTeardown_spec H (setupRules c) fuel false
      (klog Severity.Info "Exiting... Bye!" w1)
    exact ⟨a, b, fun h => by simpa using d h, e⟩
  · intro hc
    simp [hc, calls_klog]

/-- The body of `RunApp` (source lines 146-168) when the signals are `n` ticks and then the
cancellation, outside daemon mode or with a positive interval: it returns, after the eager
pass and, in daemon mode, `n` more passes. -/
theorem RunApp_body {σ : Type} (H : Host σ) (c : SidecarApp) (n : Nat) (rest : List Signal)
    (w : World σ) (hv : c.params.Daemon = false ∨ 0 < c.params.Interval) :
    (if c.params.Daemon = true then
      runPeriodic H (setupRules c) (List.replicate n Signal.tick ++ Signal.done :: rest)
        (klog Severity.Info "Running as a daemon" (runChecks H (setupRules c) w))
      else (runChecks H (setupRules c) w, Periodic.returned)).2 = Periodic.returned ∧
    calls (if c.params.Daemon = true then
      runPeriodic H (setupRules c) (List.replicate n Signal.tick ++ Signal.done :: rest)
        (klog Severity.Info "Running as a daemon" (runChecks H (setupRules c) w))
      else (runChecks H (setupRules c) w, Periodic.returned)).1.trace =
      calls w.trace ++
        (List.replicate (if c.params.Daemon = true then n + 1 else 1)
          (passCalls (setupRules c))).flatten := by
  by_cases hd : c.params.Daemon = true
  · have hi : 0 < (setupRules c).params.Interval := by
      rw [setupRules_params]
      rcases hv with hv | hv
      · rw [hd] at hv
        cases hv
      · exact hv
    obtain ⟨a, b⟩ := runPeriodic_ticks_done H (setupRules c) rest n
      (klog Severity.Info "Running as a daemon" (runChecks H (setupRules c) w)) hi
    simp only [hd, if_true]
    refine ⟨a, ?_⟩
    rw [b, calls_klog, calls_runChecks, List.replicate_succ, List.flatten_cons,
      List.append_assoc]
  · simp only [if_neg hd]
    refine ⟨trivial, ?_⟩
    rw [calls_runChecks]
    simp

/-- C9, as stated, fails: in daemon mode with the interval 0, after two timer ticks and no
cancellation `RunApp` is not in its periodic loop (`time.NewTicker` has panicked after the
eager pass), and it has made one pass, not three. -/
theorem RunApp_zero_interval_leaves_loop :
    ¬ LoopsUntilCancelled kernelHost zeroInterval443 2 6 ⟨[], []⟩ := by
  intro h
  have h1 := (h rfl).1
  revert h1
  decide

/-- C9, amended: outside daemon mode, or in daemon mode with a positive interval, `RunApp` on
the signals "`n` timer ticks, then the cancellation" makes, whatever the collaborators return,
first the calls of `n + 1` passes of `runChecks` in daemon mode (the eager pass and one pass
for each tick) and of exactly one pass otherwise; then, if and only if `Cleanup` is set, the
calls of one `TeardownNetworking`, run after all passes (one `RemoveIPAddress`, then rule
calls only), and the method has returned if the teardown returned nil, the process was ended
by `klog.Fatalf` if it returned an error, and the teardown is still running if it did not
return; without `Cleanup` the method returns after the passes.  In daemon mode with a positive
interval, while no cancellation arrives the method stays in its loop, one pass for each tick,
and no teardown runs.  Outside daemon mode the signals play no part.  In daemon mode with an
interval that is not positive, whatever the signals, `time.NewTicker` panics after the eager
pass: there is exactly one pass, then the calls of one `TeardownNetworking` if and only if
`Cleanup` is set, and the method is left by the panic (by `klog.Fatalf` if the teardown
returned an error, and not at all while the teardown runs). -/
theorem RunApp_passes_then_teardown {σ : Type} (H : Host σ) (c : SidecarApp) (n : Nat)
    (rest : List Signal) (fuel : Nat) (w : World σ) :
    ((c.params.Daemon = false ∨ 0 < c.params.Interval) →
      ∃ w2 : World σ,
        calls w2.trace = calls w.trace ++
          (List.replicate (if c.params.Daemon = true then n + 1 else 1)
            (passCalls (setupRules c))).flatten ∧
        (c.params.Cleanup = true →
          calls (RunApp H c (List.replicate n Signal.tick ++ Signal.done :: rest) fuel
              w).1.trace = calls (TeardownNetworking H (setupRules c) fuel w2).1.trace ∧
          ((TeardownNetworking H (setupRules c) fuel w2).2 = none →
            (RunApp H c (List.replicate n Signal.tick ++ Signal.done :: rest) fuel w).2 =
              Exit.deleting) ∧
          ((TeardownNetworking H (setupRules c) fuel w2).2 = some none →
            (RunApp H c (List.replicate n Signal.tick ++ Signal.done :: rest) fuel w).2 =
              Exit.returned) ∧
          (∀ err, (TeardownNetworking H (setupRules c) fuel w2).2 = some (some err) →
            (RunApp H c (List.replicate n Signal.tick ++ Signal.done :: rest) fuel w).2 =
              Exit.fatal)) ∧
        (c.params.Cleanup = false →
          calls (RunApp H c (List.replicate n Signal.tick ++ Signal.done :: rest) fuel
              w).1.trace = calls w2.trace ∧
          (RunApp H c (List.replicate n Signal.tick ++ Signal.done :: rest) fuel w).2 =
            Exit.returned)) ∧
    ((c.params.Daemon = false ∨ 0 < c.params.Interval) →
      ∃ tl,
        calls (RunApp H c (List.replicate n Signal.tick ++ Signal.done :: rest) fuel
            w).1.trace =
          calls w.trace ++
            (List.replicate (if c.params.Daemon = true then n + 1 else 1)
              (passCalls (setupRules c))).flatten ++
            (if c.params.Cleanup = true then Event.RemoveIPAddress :: tl else []) ∧
        (∀ e ∈ tl, e.isRuleCall = true)) ∧
    (c.params.Daemon = true → 0 < c.params.Interval →
      (RunApp H c (List.replicate n Signal.tick) fuel w).2 = Exit.waiting ∧
      calls (RunApp H c (List.replicate n Signal.tick) fuel w).1.trace =
        calls w.trace ++ (List.replicate (n + 1) (passCalls (setupRules c))).flatten) ∧
    (c.params.Daemon = false →
      ∀ signals, RunApp H c signals fuel w = RunApp H c [] fuel w) ∧
    (c.params.Daemon = true → c.params.Interval ≤ 0 →
      ∀ signals, ∃ w2 : World σ,
        calls w2.trace = calls w.trace ++ passCalls (setupRules c) ∧
        (c.params.Cleanup = true →
          calls (RunApp H c signals fuel w).1.trace =
            calls (TeardownNetworking H (setupRules c) fuel w2).1.trace ∧
          ((TeardownNetworking H (setupRules c) fuel w2).2 = none →
            (RunApp H c signals fuel w).2 = Exit.deleting) ∧
          ((TeardownNetworking H (setupRules c) fuel w2).2 = some none →
            (RunApp H c signals fuel w).2 = Exit.panicked) ∧
          (∀ err, (TeardownNetworking H (setupRules c) fuel w2).2 = some (some err) →
            (RunApp H c signals fuel w).2 = Exit.fatal)) ∧
        (c.params.Cleanup = false →
          calls (RunApp H c signals fuel w).1.trace = calls w2.trace ∧
          (RunApp H c signals fuel w).2 = Exit.panicked)) := by
  have hp := setupRules_params c
  refine ⟨?_, ?_, ?_, ?_, ?_⟩
  · intro hv
    obtain ⟨hb1, hb2⟩ := RunApp_body H c n rest w hv
    have hrun := RunApp_of_body H c (List.replicate n Signal.tick ++ Signal.done :: rest) fuel
      w _ rfl
    rw [hb1] at hrun
    obtain ⟨hT, hF⟩ := RunApp_after_return H c fuel _ _ hrun
    refine ⟨klog Severity.Info "Exiting... Bye!" (if c.params.Daemon = true then
      runPeriodic H (setupRules c) (List.replicate n Signal.tick ++ Signal.done :: rest)
        (klog Severity.Info "Running as a daemon" (runChecks H (setupRules c) w))
      else (runChecks H (setupRules c) w, Periodic.returned)).1, ?_, hT, ?_⟩
    · rw [calls_klog, hb2]
    · intro hc
      obtain ⟨a, b⟩ := hF hc
      exact ⟨by rw [a, calls_klog], b⟩
  · intro hv
    obtain ⟨hb1, hb2⟩ := RunApp_body H c n rest w hv
    have hrun := RunApp_of_body H c (List.replicate n Signal.tick ++ Signal.done :: rest) fuel
      w _ rfl
    rw [hb1] at hrun
    obtain ⟨hT, hF⟩ := RunApp_after_return H c fuel _ _ hrun
    by_cases hc : c.params.Cleanup = true
    · obtain ⟨a, -⟩ := hT hc
      obtain ⟨tl, t1, t2, -⟩ := calls_TeardownNetworking H (setupRules c) fuel
        (klog Severity.Info "Exiting... Bye!" (if c.params.Daemon = true then
          runPeriodic H (setupRules c) (List.replicate n Signal.tick ++ Signal.done :: rest)
            (klog Severity.Info "Running as a daemon" (runChecks H (setupRules c) w))
          else (runChecks H (setupRules c) w, Periodic.returned)).1)
      refine ⟨tl, ?_, t2⟩
      rw [a, t1, calls_klog, hb2, if_pos hc]
    · have hc2 : c.params.Cleanup = false := by
        cases h : c.params.Cleanup
        · rfl
        · exact absurd h hc
      obtain ⟨a, -⟩ := hF hc2
      refine ⟨[], ?_, by simp⟩
      rw [a, hb2, if_neg hc]
      simp
  · intro hd hi
    have hi2 : 0 < (setupRules c).params.Interval := by rw [hp]; exact hi
    obtain ⟨a, b⟩ := runPeriodic_ticks H (setupRules c) n
      (klog Severity.Info "Running as a daemon" (runChecks H (setupRules c) w)) hi2
    have hrun := RunApp_of_body H c (List.replicate n Signal.tick) fuel w _ rfl
    rw [if_pos hd, a] at hrun
    rw [hrun]
    refine ⟨rfl, ?_⟩
    simp only [if_pos hd]
    rw [b, calls_klog, calls_runChecks, List.replicate_succ, List.flatten_cons,
      List.append_assoc]
  · intro hd signals
    have hn : ¬ c.params.Daemon = true := by rw [hd]; simp
    have h1 := RunApp_of_body H c signals fuel w _ rfl
    have h2 := RunApp_of_body H c [] fuel w _ rfl
    rw [if_neg hn] at h1 h2
    rw [h1, h2]
  · intro hd hi signals
    have hi2 : (setupRules c).params.Interval ≤ 0 := by rw [hp]; exact hi
    have hpanic := runPeriodic_panics H (setupRules c) signals
      (klog Severity.Info "Running as a daemon" (runChecks H (setupRules c) w)) hi2
    have hrun := RunApp_of_body H c signals fuel w _ rfl
    rw [if_pos hd, hpanic] at hrun
    simp only at hrun
    refine ⟨klog Severity.Info "Running as a daemon" (runChecks H (setupRules c) w), ?_, ?_, ?_⟩
    · rw [calls_klog, calls_runChecks]
    · intro hc
      rw [if_pos hc] at hrun
      rw [hrun]
      obtain ⟨a, b, d, e⟩ := deferredTeardown_spec H (setupRules c) fuel true
        (klog Severity.Info "Running as a daemon" (runChecks H (setupRules c) w))
      exact ⟨a, b, fun h => by simpa using d h, e⟩
    · intro hc
      have hn : ¬ c.params.Cleanup = true := by rw [hc]; simp
      rw [if_neg hn] at hrun
      rw [hrun]
      exact ⟨rfl, rfl⟩

/-- C9 amended, at the literal scenario (interval 5s) on a kernel without rules: two ticks,
then the cancellation; three passes, then the teardown with its one `RemoveIPAddress`. -/
theorem RunApp_passes_then_teardown_witness :
    ∃ tl,
      calls (RunApp kernelHost fresh443 (List.replicate 2 Signal.tick ++ Signal.done :: []) 6
          ⟨[], []⟩).1.trace =
        calls ([] : List Event) ++
          (List.replicate (if fresh443.params.Daemon = true then 2 + 1 else 1)
            (passCalls (setupRules fresh443))).flatten ++
          (if fresh443.params.Cleanup = true then Event.RemoveIPAddress :: tl else []) ∧
      (∀ e ∈ tl, e.isRuleCall = true) :=
  (RunApp_passes_then_teardown kernelHost fresh443 2 [] 6 ⟨[], []⟩).2.1 (Or.inr (by decide))

set_option maxRecDepth 100000 in
/-- The literal scenario, evaluated: on a kernel without rules, two ticks and then the
cancellation give three `EnsureIPAddress` calls (three passes) and one `RemoveIPAddress`
call; the method returns and the kernel holds no rule at the end.  With the interval 0 the
same signals give one `EnsureIPAddress` call, one `RemoveIPAddress` call and the panic. -/
theorem RunApp_scenario_evaluated :
    (RunApp kernelHost fresh443 [Signal.tick, Signal.tick, Signal.done] 6 ⟨[], []⟩).2 =
      Exit.returned ∧
    ((calls (RunApp kernelHost fresh443 [Signal.tick, Signal.tick, Signal.done] 6
      ⟨[], []⟩).1.trace).count Event.EnsureIPAddress) = 3 ∧
    ((calls (RunApp kernelHost fresh443 [Signal.tick, Signal.tick, Signal.done] 6
      ⟨[], []⟩).1.trace).count Event.RemoveIPAddress) = 1 ∧
    (RunApp kernelHost fresh443 [Signal.tick, Signal.tick, Signal.done] 6 ⟨[], []⟩).1.host =
      [] ∧
    (RunApp kernelHost zeroInterval443 [Signal.tick, Signal.tick, Signal.done] 6
      ⟨[], []⟩).2 = Exit.panicked ∧
    ((calls (RunApp kernelHost zeroInterval443 [Signal.tick, Signal.tick, Signal.done] 6
      ⟨[], []⟩).1.trace).count Event.EnsureIPAddress) = 1 ∧
    ((calls (RunApp kernelHost zeroInterval443 [Signal.tick, Signal.tick, Signal.done] 6
      ⟨[], []⟩).1.trace).count Event.RemoveIPAddress) = 1 := by
  decide

end app

end ApiserverProxy
